import Mathlib

/-!
# Region allocators of `mtl/Alloc.h`

A shallow embedding of `RegionAllocator<T>` and `GenerationalRegionAllocator<T>`
(MiniSat 2.2.0 as shipped in kodkod) together with theorems about them.

Conventions of the embedding

* `uint32_t` values are natural numbers; every arithmetic result is reduced
  modulo `2^32 = 4294967296` exactly where the C++ code wraps.
* A pointer `T*` is a natural number counted in units of `sizeof(T)`;
  `NULL` is `0`; `&memory[i]` is `memory + i`.  Addresses themselves do not wrap.
* `Generation*` is an index into an object heap; a `NULL` table entry is `none`.
* A member function is a function from the state before the call to a `Run`:
  normal return (value and state after), `OutOfMemoryException` (state at the
  throw), undefined behaviour or failed `assert`, or exhausted fuel.
* `xrealloc` lives in `mtl/XAlloc.h`; it is a parameter:
  `xrealloc p n` is the result of `xrealloc(p, sizeof(T)*n)`, `none` meaning that
  it threw `OutOfMemoryException`.
-/

namespace Minisat

/-- Result of running a member function. -/
inductive Run (σ α : Type) where
  /-- normal return with the returned value and the state after the call -/
  | ret (value : α) (post : σ)
  /-- an `OutOfMemoryException` left the function; `post` is the state at the throw -/
  | oom (post : σ)
  /-- failed `assert`, null dereference or out-of-range array index -/
  | undefined
  /-- the fuel ran out before the function finished -/
  | timeout
  deriving DecidableEq, Repr

/-- The state a run leaves behind, when it leaves one. -/
def Run.post? {σ α : Type} : Run σ α → Option σ
  | .ret _ s => some s
  | .oom s => some s
  | .undefined => none
  | .timeout => none

/-- The value `UINT32_MAX`. -/
def UINT32_MAX : Nat := 4294967295

/-- Reduction of an arithmetic result to `uint32_t`. -/
def u32 (n : Nat) : Nat := n % 4294967296

/-- Conversion of an `int` operand to `uint32_t` (as in `sz + size`). -/
def ofInt (i : Int) : Nat := (i % 4294967296).toNat

/-- The data members of `RegionAllocator<T>`. -/
structure RegionAllocator where
  memory : Nat
  sz : Nat
  cap : Nat
  wasted_ : Nat
  deriving DecidableEq, Repr

/-- The enumerator `Ref_Undef = UINT32_MAX`. -/
def Ref_Undef : Nat := UINT32_MAX

/-- One pass through the body of the `while` loop of `capacity`, up to the test:
`delta = ((cap >> 1) + (cap >> 3) + 2) & ~1; cap += delta`. -/
def growStep (cap : Nat) : Nat :=
  u32 (cap + (u32 (u32 ((cap >>> 1) + (cap >>> 3)) + 2) &&& 4294967294))

/-- The `while (cap < min_cap)` loop of `capacity`; the state is `cap`,
`prev_cap` is the value saved before the loop. -/
def capacityLoop (prev_cap min_cap : Nat) : Nat → Nat → Run Nat Unit
  | 0, cap => if cap < min_cap then .timeout else .ret () cap
  | fuel + 1, cap =>
    if cap < min_cap then
      if growStep cap ≤ prev_cap then .oom (growStep cap)
      else capacityLoop prev_cap min_cap fuel (growStep cap)
    else .ret () cap

namespace RegionAllocator

/-- `void RegionAllocator<T>::capacity(uint32_t min_cap)`.  On a throw inside
the loop `cap` keeps the value it had reached and `memory` is not reallocated. -/
def capacity (xrealloc : Nat → Nat → Option Nat) (fuel : Nat)
    (a : RegionAllocator) (min_cap : Nat) : Run RegionAllocator Unit :=
  if a.cap ≥ min_cap then .ret () a
  else
    match capacityLoop a.cap min_cap fuel a.cap with
    | .ret _ c =>
      if c > 0 then
        match xrealloc a.memory c with
        | some p => .ret () { a with cap := c, memory := p }
        | none => .oom { a with cap := c }
      else .undefined
    | .oom c => .oom { a with cap := c }
    | .undefined => .undefined
    | .timeout => .timeout

/-- `explicit RegionAllocator(uint32_t start_cap)`. -/
def construct (xrealloc : Nat → Nat → Option Nat) (fuel : Nat) (start_cap : Nat) :
    Run RegionAllocator Unit :=
  capacity xrealloc fuel { memory := 0, sz := 0, cap := 0, wasted_ := 0 } start_cap

/-- `uint32_t size() const`. -/
def size (a : RegionAllocator) : Nat := a.sz

/-- `uint32_t wasted() const`. -/
def wasted (a : RegionAllocator) : Nat := a.wasted_

/-- `Ref RegionAllocator<T>::alloc(int size)`; a failed `assert(size > 0)` is
undefined. -/
def alloc (xrealloc : Nat → Nat → Option Nat) (fuel : Nat)
    (a : RegionAllocator) (size : Int) : Run RegionAllocator Nat :=
  if size > 0 then
    match a.capacity xrealloc fuel (u32 (a.sz + ofInt size)) with
    | .ret _ a1 =>
      let prev_sz := a1.sz
      let a2 := { a1 with sz := u32 (a1.sz + ofInt size) }
      if a2.sz < prev_sz then .oom a2 else .ret prev_sz a2
    | .oom a1 => .oom a1
    | .undefined => .undefined
    | .timeout => .timeout
  else .undefined

/-- `void free(int size)`. -/
def free (a : RegionAllocator) (size : Int) : RegionAllocator :=
  { a with wasted_ := u32 (a.wasted_ + ofInt size) }

/-- `T& operator[](Ref r)`: the element referred to, as its address;
`none` when `assert(r >= 0 && r < sz)` fails. -/
def subscript (a : RegionAllocator) (r : Nat) : Option Nat :=
  if r < a.sz then some (a.memory + r) else none

/-- `T* lea(Ref r)`; `none` when `assert(r >= 0 && r < sz)` fails. -/
def lea (a : RegionAllocator) (r : Nat) : Option Nat :=
  if r < a.sz then some (a.memory + r) else none

/-- `Ref ael(const T* t)`; `sz-1` is computed in `uint32_t`. -/
def ael (a : RegionAllocator) (t : Nat) : Nat :=
  if t ≥ a.memory + 0 ∧ t < a.memory + u32 (a.sz + 4294967295) then u32 (t - (a.memory + 0))
  else Ref_Undef

/-- `void moveTo(RegionAllocator& to)`: the pair (`*this`, `to`) after the call,
`self` standing for `*this` and `other` for `to`.
The `::free` of the old buffer of `to` has no effect on the modelled state. -/
def moveTo (self other : RegionAllocator) : RegionAllocator × RegionAllocator :=
  let to1 := { other with memory := self.memory }
  let to2 := { to1 with sz := self.sz }
  let to3 := { to2 with cap := self.cap }
  let to4 := { to3 with wasted_ := self.wasted_ }
  ({ memory := 0, sz := 0, cap := 0, wasted_ := 0 }, to4)

end RegionAllocator

/-! ### The generational allocator -/

namespace InnerRef

/-- The read of `ref.fields.generation` of the union `InnerRef` (Alloc.h lines
152-158).  The bit-field `generation : 8` is declared first and `index : 24`
second; the compilers the code is written for (it uses the GCC builtins
`__sync_fetch_and_add` and `__sync_fetch_and_sub`; GCC and Clang on x86 and ARM)
allocate bit-fields in declaration order starting at the least significant bit,
so `generation` is the low byte of `ref`. -/
def generation (ref : Nat) : Nat := ref % 256

/-- The read of `ref.fields.index`: the 24 bits above the `generation` byte.  No
member function reads this field. -/
def index (ref : Nat) : Nat := (ref / 256) % 16777216

/-- The value of `ref.ref` after the assignment `ref.fields.generation = g`: the
low byte is replaced (an 8-bit field keeps `g` modulo 256), the upper 24 bits
stay. -/
def setGeneration (ref g : Nat) : Nat := ((ref / 256) % 16777216) * 256 + g % 256

end InnerRef

/-- The data members of the nested class `Generation`. -/
structure Generation where
  ref_count : Nat
  allocator : RegionAllocator
  deriving DecidableEq, Repr

/-- The `Generation` objects created by `new`, by address: entry `p` is the
object at address `p`, or `none` once it has been deleted.  `new` uses the next
unused address. -/
abbrev Heap := List (Option Generation)

/-- The object a `Generation*` points to, if it is live. -/
def Heap.deref (heap : Heap) (p : Nat) : Option Generation :=
  match heap[p]? with
  | some (some g) => some g
  | _ => none

namespace Generation

/-- `new Generation(start_cap)`: the constructor sets `ref_count(1)` and builds
`allocator(start_cap)`; an exception from the latter leaves no object. -/
def construct (xrealloc : Nat → Nat → Option Nat) (fuel : Nat) (start_cap : Nat) :
    Run Unit Generation :=
  match RegionAllocator.construct xrealloc fuel start_cap with
  | .ret _ al => .ret { ref_count := 1, allocator := al } ()
  | .oom _ => .oom ()
  | .undefined => .undefined
  | .timeout => .timeout

/-- `p->retain()`.  Calling it on a deleted object is undefined; the heap is then
left as it is. -/
def retain (heap : Heap) (p : Nat) : Heap :=
  match heap.deref p with
  | some g => heap.set p (some { g with ref_count := u32 (g.ref_count + 1) })
  | none => heap

/-- `p->release()`: the count is decremented and the object deleted when the old
count was 1.  Calling it on a deleted object is undefined; the heap is then left
as it is. -/
def release (heap : Heap) (p : Nat) : Heap :=
  match heap.deref p with
  | some g =>
    if g.ref_count = 1 then heap.set p none
    else heap.set p (some { g with ref_count := u32 (g.ref_count + 4294967295) })
  | none => heap

end Generation

/-- The data members of `GenerationalRegionAllocator<T>`; `generations i` is the
array element `generations[i]`, meaningful for `i < GENERATION_COUNT`. -/
structure GenerationalRegionAllocator where
  generations : Nat → Option Nat
  current_generation : Nat
  start_cap : Nat
  size_ : Nat
  wasted_ : Nat

/-- The constant `GENERATION_COUNT = 1 << GENERATION_BITS`. -/
def GENERATION_COUNT : Nat := 256

/-- Body of the `for` loop of `copyTo` for one value of `generation`; the state is
the heap and the table of `to`, `src` is the table of `*this`. -/
def copyToBody (src : Nat → Option Nat) (g : Nat)
    (s : Heap × (Nat → Option Nat)) : Heap × (Nat → Option Nat) :=
  let s1 : Heap × (Nat → Option Nat) :=
    match s.2 g with
    | some p => (Generation.release s.1 p, Function.update s.2 g none)
    | none => s
  let t2 := Function.update s1.2 g (src g)
  match src g with
  | some p => (Generation.retain s1.1 p, t2)
  | none => (s1.1, t2)

/-- The `for` loop of `copyTo`: `n` more iterations starting at `generation = g`. -/
def copyToLoop (src : Nat → Option Nat) :
    Nat → Nat → Heap × (Nat → Option Nat) → Heap × (Nat → Option Nat)
  | 0, _, s => s
  | n + 1, g, s => copyToLoop src n (g + 1) (copyToBody src g s)

namespace GenerationalRegionAllocator

/-- `explicit GenerationalRegionAllocator(uint32_t start_cap)`: the new allocator
and the heap holding its first generation. -/
def construct (xrealloc : Nat → Nat → Option Nat) (fuel : Nat) (heap : Heap)
    (start_cap : Nat) : Run Heap GenerationalRegionAllocator :=
  match Generation.construct xrealloc fuel start_cap with
  | .ret g _ =>
    .ret { generations := Function.update (fun _ => none) 0 (some heap.length),
           current_generation := 0, start_cap := start_cap, size_ := 0, wasted_ := 0 }
      (heap ++ [some g])
  | .oom _ => .oom heap
  | .undefined => .undefined
  | .timeout => .timeout

/-- `uint32_t size() const`. -/
def size (a : GenerationalRegionAllocator) : Nat := a.size_

/-- `uint32_t wasted() const`. -/
def wasted (a : GenerationalRegionAllocator) : Nat := a.wasted_

/-- `Ref alloc(int size)`.  The state is the heap of generations and the
allocator.  Reading `generations[current_generation]` outside the array, or
calling through a null or deleted `Generation*`, is undefined. -/
def alloc (xrealloc : Nat → Nat → Option Nat) (fuel : Nat) (heap : Heap)
    (a : GenerationalRegionAllocator) (size : Int) :
    Run (Heap × GenerationalRegionAllocator) Nat :=
  if a.current_generation < GENERATION_COUNT then
    match a.generations a.current_generation with
    | none => .undefined
    | some p =>
      match heap.deref p with
      | none => .undefined
      | some g =>
        match g.allocator.alloc xrealloc fuel size with
        | .ret r al =>
          let heap1 := heap.set p (some { g with allocator := al })
          if InnerRef.generation r ≠ 0 then .oom (heap1, a)
          else
            let a1 := { a with size_ := u32 (a.size_ + ofInt size) }
            .ret (InnerRef.setGeneration r a.current_generation) (heap1, a1)
        | .oom al => .oom (heap.set p (some { g with allocator := al }), a)
        | .undefined => .undefined
        | .timeout => .timeout
  else .undefined

/-- `void free(int size)`. -/
def free (a : GenerationalRegionAllocator) (size : Int) : GenerationalRegionAllocator :=
  { a with wasted_ := u32 (a.wasted_ + ofInt size) }

/-- `T& operator[](Ref r)`: the element referred to, as its address; `none` when
the table entry is null, the generation is deleted, or the assertion of the flat
allocator fails. -/
def subscript (heap : Heap) (a : GenerationalRegionAllocator) (r : Nat) : Option Nat :=
  match a.generations (InnerRef.generation r) with
  | none => none
  | some p =>
    match heap.deref p with
    | none => none
    | some g => g.allocator.subscript (InnerRef.setGeneration r 0)

/-- `T* lea(Ref r)`. -/
def lea (heap : Heap) (a : GenerationalRegionAllocator) (r : Nat) : Option Nat :=
  match a.generations (InnerRef.generation r) with
  | none => none
  | some p =>
    match heap.deref p with
    | none => none
    | some g => g.allocator.lea (InnerRef.setGeneration r 0)

/-- `void copyTo(GenerationalRegionAllocator& to)` for two distinct allocator
objects; the state is the heap, `*this` (`self`) and `to` (`other`).  Writing
`generations[current_generation]` outside the array is undefined. -/
def copyTo (xrealloc : Nat → Nat → Option Nat) (fuel : Nat) (heap : Heap)
    (self other : GenerationalRegionAllocator) :
    Run (Heap × GenerationalRegionAllocator × GenerationalRegionAllocator) Unit :=
  let s := copyToLoop self.generations GENERATION_COUNT 0 (heap, other.generations)
  let other1 := { other with generations := s.2 }
  let self1 := { self with current_generation := u32 (self.current_generation + 1) }
  if self1.current_generation < GENERATION_COUNT then
    match Generation.construct xrealloc fuel self1.start_cap with
    | .ret g1 _ =>
      let heap2 := s.1 ++ [some g1]
      let self2 := { self1 with
        generations := Function.update self1.generations self1.current_generation
          (some s.1.length) }
      match Generation.construct xrealloc fuel other1.start_cap with
      | .ret g2 _ =>
        let heap3 := heap2 ++ [some g2]
        let other2 := { other1 with
          generations := Function.update other1.generations self2.current_generation
            (some heap2.length) }
        let other3 := { other2 with size_ := self2.size_ }
        let other4 := { other3 with wasted_ := self2.wasted_ }
        let other5 := { other4 with current_generation := self2.current_generation }
        .ret () (heap3, self2, other5)
      | .oom _ => .oom (heap2, self2, other1)
      | .undefined => .undefined
      | .timeout => .timeout
    | .oom _ => .oom (s.1, self1, other1)
    | .undefined => .undefined
    | .timeout => .timeout
  else .undefined

end GenerationalRegionAllocator

/-- Successive `alloc` calls on one allocator with the given counts: the handles
returned and the final state, provided every call returned normally. -/
def allocSeq (xrealloc : Nat → Nat → Option Nat) (fuel : Nat) :
    RegionAllocator → List Nat → Option (List Nat × RegionAllocator)
  | a, [] => some ([], a)
  | a, s :: ss =>
    match a.alloc xrealloc fuel (s : Int) with
    | .ret h a1 =>
      match allocSeq xrealloc fuel a1 ss with
      | some (hs, a2) => some (h :: hs, a2)
      | none => none
    | _ => none

/-- Ghost observation of the loop of `capacity`: `true` when some pass through the
loop body produced a capacity that is not strictly greater than the capacity
before that pass. -/
def capacityLoopWrapped (prev_cap min_cap : Nat) : Nat → Nat → Bool
  | 0, _ => false
  | fuel + 1, cap =>
    if cap < min_cap then
      if growStep cap ≤ cap then true
      else if growStep cap ≤ prev_cap then false
      else capacityLoopWrapped prev_cap min_cap fuel (growStep cap)
    else false

/-- Two index ranges, each given as (first index, count), have no index in common. -/
def rangesDisjoint (r1 r2 : Nat × Nat) : Prop :=
  ∀ n, ¬ (r1.1 ≤ n ∧ n < r1.1 + r1.2 ∧ r2.1 ≤ n ∧ n < r2.1 + r2.2)

/-- A system allocator that always succeeds and places a buffer of `n` elements at
address `65536 * n`. -/
def xreallocBySize : Nat → Nat → Option Nat := fun _ n => some (65536 * n)

/-- Example heap: generation 0 of allocator `exampleA` (30 of 40 slots used) and
generation 0 of allocator `exampleB` (empty, capacity 66). -/
def exampleHeap : Heap :=
  [some { ref_count := 1, allocator := { memory := 2621440, sz := 30, cap := 40, wasted_ := 0 } },
   some { ref_count := 1, allocator := { memory := 4325376, sz := 0, cap := 66, wasted_ := 0 } }]

/-- Example allocator with `start_cap = 16` that has allocated 30 elements. -/
def exampleA : GenerationalRegionAllocator :=
  { generations := Function.update (fun _ => none) 0 (some 0),
    current_generation := 0, start_cap := 16, size_ := 30, wasted_ := 0 }

/-- Example allocator with `start_cap = 64`, just constructed. -/
def exampleB : GenerationalRegionAllocator :=
  { generations := Function.update (fun _ => none) 0 (some 1),
    current_generation := 0, start_cap := 64, size_ := 0, wasted_ := 0 }

/-- A system allocator that always succeeds and hands out address 4096. -/
def xreallocFixed : Nat → Nat → Option Nat := fun _ _ => some 4096

/-- A system allocator that is out of memory: every request throws. -/
def xreallocNone : Nat → Nat → Option Nat := fun _ _ => none

/-- Body of the `for` loop of the generational `moveTo` for one value of
`generation`; the state is the heap, the table of `*this` and the table of `to`. -/
def moveToBody (g : Nat)
    (s : Heap × (Nat → Option Nat) × (Nat → Option Nat)) :
    Heap × (Nat → Option Nat) × (Nat → Option Nat) :=
  let s1 : Heap × (Nat → Option Nat) :=
    match s.2.2 g with
    | some p => (Generation.release s.1 p, Function.update s.2.2 g none)
    | none => (s.1, s.2.2)
  (s1.1, Function.update s.2.1 g none, Function.update s1.2 g (s.2.1 g))

/-- The `for` loop of the generational `moveTo`: `n` more iterations starting at
`generation = g`. -/
def moveToLoop :
    Nat → Nat → Heap × (Nat → Option Nat) × (Nat → Option Nat) →
      Heap × (Nat → Option Nat) × (Nat → Option Nat)
  | 0, _, s => s
  | n + 1, g, s => moveToLoop n (g + 1) (moveToBody g s)

/-- Body of the `for` loop of the destructor for one value of `index`; the state
is the heap and the table. -/
def destructBody (g : Nat) (s : Heap × (Nat → Option Nat)) : Heap × (Nat → Option Nat) :=
  match s.2 g with
  | some p => (Generation.release s.1 p, Function.update s.2 g none)
  | none => s

/-- The `for` loop of the destructor: `n` more iterations starting at `index = g`. -/
def destructLoop : Nat → Nat → Heap × (Nat → Option Nat) → Heap × (Nat → Option Nat)
  | 0, _, s => s
  | n + 1, g, s => destructLoop n (g + 1) (destructBody g s)

/-- The `for` loop of the generational `ael`: `n` more iterations starting at
`generation = g`; the loop also ends at the first null table entry.  `none` when
a deleted generation is called. -/
def aelLoop (heap : Heap) (table : Nat → Option Nat) (t : Nat) : Nat → Nat → Option Nat
  | 0, _ => some UINT32_MAX
  | n + 1, g =>
    match table g with
    | none => some UINT32_MAX
    | some p =>
      match heap.deref p with
      | none => none
      | some gen =>
        if gen.allocator.ael t ≠ UINT32_MAX then
          some (InnerRef.setGeneration (gen.allocator.ael t) g)
        else aelLoop heap table t n (g + 1)

namespace GenerationalRegionAllocator

/-- `Ref ael(const T* t)` of the generational allocator. -/
def ael (heap : Heap) (a : GenerationalRegionAllocator) (t : Nat) : Option Nat :=
  aelLoop heap a.generations t GENERATION_COUNT 0

/-- `void moveTo(GenerationalRegionAllocator& to)` for two distinct allocator
objects: the heap, `*this` (`self`) and `to` (`other`) after the call. -/
def moveTo (heap : Heap) (self other : GenerationalRegionAllocator) :
    Heap × GenerationalRegionAllocator × GenerationalRegionAllocator :=
  let s := moveToLoop GENERATION_COUNT 0 (heap, self.generations, other.generations)
  let other1 := { other with generations := s.2.2 }
  let other2 := { other1 with size_ := self.size_ }
  let other3 := { other2 with wasted_ := self.wasted_ }
  let other4 := { other3 with current_generation := self.current_generation }
  let self1 := { self with generations := s.2.1 }
  let self2 := { self1 with current_generation := 0 }
  let self3 := { self2 with wasted_ := 0 }
  let self4 := { self3 with size_ := 0 }
  (s.1, self4, other4)

/-- `~GenerationalRegionAllocator()`: the heap and the members of the dying
allocator after the destructor body. -/
def destruct (heap : Heap) (a : GenerationalRegionAllocator) :
    Heap × GenerationalRegionAllocator :=
  let s := destructLoop GENERATION_COUNT 0 (heap, a.generations)
  (s.1, { a with generations := s.2 })

end GenerationalRegionAllocator

/-! ### Systems of generational allocators -/

/-- Number of slots below `n` of a table that hold the pointer `p`. -/
def tableRefsUpTo (table : Nat → Option Nat) (p : Nat) : Nat → Nat
  | 0 => 0
  | n + 1 => tableRefsUpTo table p n + (if table n = some p then 1 else 0)

/-- Number of slots of a generation table that hold the pointer `p`. -/
def tableRefs (table : Nat → Option Nat) (p : Nat) : Nat :=
  tableRefsUpTo table p GENERATION_COUNT

/-- Number of (allocator, slot) table entries among the given allocators that
hold the pointer `p`. -/
def sysRefs : List GenerationalRegionAllocator → Nat → Nat
  | [], _ => 0
  | a :: l, p => tableRefs a.generations p + sysRefs l p

/-- The heap agrees with a count of references: a live generation carries the
count as its `ref_count` and the count is at least 1; where there is no live
generation the count is 0. -/
def HeapCounts (heap : Heap) (cnt : Nat → Nat) : Prop :=
  (∀ p g, heap.deref p = some g → g.ref_count = cnt p ∧ 1 ≤ cnt p) ∧
    (∀ p, heap.deref p = none → cnt p = 0)

/-- The heap `heap1` has the cells of `heap`, and every generation live in `heap1`
was live in `heap` with the same flat allocator. -/
def HeapKeeps (heap heap1 : Heap) : Prop :=
  heap1.length = heap.length ∧
    ∀ p g1, heap1.deref p = some g1 → ∃ g, heap.deref p = some g ∧ g1.allocator = g.allocator

/-- A program state: the heap of generations and the generational allocators
that are alive, in a list.  An operation names an allocator by its position in
the list; a constructed allocator is added at the end and a destroyed one is
taken out of the list. -/
structure System where
  heap : Heap
  allocs : List GenerationalRegionAllocator

/-- The operations of a program on its generational allocators. -/
inductive OpKind where
  | construct
  | alloc
  | allocThrows
  | free
  | moveTo
  | copyTo
  | copyToThrows
  | destroy
  deriving DecidableEq, Repr

/-- One operation on the allocators of a program state: a constructor call, an
`alloc` that returns, an `alloc` that throws, `free`, `moveTo` between two
distinct allocators, a `copyTo` between two distinct allocators (the source with
`current_generation < 255`) that returns, such a `copyTo` that throws from one of
its two `new Generation`, a destructor call.  A constructor call that throws
leaves no allocator and no generation behind and is no step. -/
inductive Step : OpKind → System → System → Prop where
  | construct (s : System) (xrealloc : Nat → Nat → Option Nat) (fuel start_cap : Nat)
      (a : GenerationalRegionAllocator) (heap1 : Heap)
      (h : GenerationalRegionAllocator.construct xrealloc fuel s.heap start_cap
        = .ret a heap1) :
      Step .construct s { heap := heap1, allocs := s.allocs ++ [a] }
  | alloc (s : System) (i : Nat) (a : GenerationalRegionAllocator)
      (xrealloc : Nat → Nat → Option Nat) (fuel : Nat) (size : Int) (r : Nat)
      (heap1 : Heap) (a1 : GenerationalRegionAllocator)
      (hi : s.allocs[i]? = some a)
      (h : GenerationalRegionAllocator.alloc xrealloc fuel s.heap a size
        = .ret r (heap1, a1)) :
      Step .alloc s { heap := heap1, allocs := s.allocs.set i a1 }
  | allocThrows (s : System) (i : Nat) (a : GenerationalRegionAllocator)
      (xrealloc : Nat → Nat → Option Nat) (fuel : Nat) (size : Int)
      (heap1 : Heap) (a1 : GenerationalRegionAllocator)
      (hi : s.allocs[i]? = some a)
      (h : GenerationalRegionAllocator.alloc xrealloc fuel s.heap a size
        = .oom (heap1, a1)) :
      Step .allocThrows s { heap := heap1, allocs := s.allocs.set i a1 }
  | free (s : System) (i : Nat) (a : GenerationalRegionAllocator) (size : Int)
      (hi : s.allocs[i]? = some a) :
      Step .free s { heap := s.heap, allocs := s.allocs.set i (a.free size) }
  | moveTo (s : System) (i j : Nat) (A B : GenerationalRegionAllocator) (heap1 : Heap)
      (A1 B1 : GenerationalRegionAllocator)
      (hij : i ≠ j) (hi : s.allocs[i]? = some A) (hj : s.allocs[j]? = some B)
      (h : GenerationalRegionAllocator.moveTo s.heap A B = (heap1, A1, B1)) :
      Step .moveTo s { heap := heap1, allocs := (s.allocs.set i A1).set j B1 }
  | copyTo (s : System) (i j : Nat) (A B : GenerationalRegionAllocator)
      (xrealloc : Nat → Nat → Option Nat) (fuel : Nat) (heap1 : Heap)
      (A1 B1 : GenerationalRegionAllocator)
      (hij : i ≠ j) (hi : s.allocs[i]? = some A) (hj : s.allocs[j]? = some B)
      (hcg : A.current_generation < 255)
      (h : GenerationalRegionAllocator.copyTo xrealloc fuel s.heap A B
        = .ret () (heap1, A1, B1)) :
      Step .copyTo s { heap := heap1, allocs := (s.allocs.set i A1).set j B1 }
  | copyToThrows (s : System) (i j : Nat) (A B : GenerationalRegionAllocator)
      (xrealloc : Nat → Nat → Option Nat) (fuel : Nat) (heap1 : Heap)
      (A1 B1 : GenerationalRegionAllocator)
      (hij : i ≠ j) (hi : s.allocs[i]? = some A) (hj : s.allocs[j]? = some B)
      (hcg : A.current_generation < 255)
      (h : GenerationalRegionAllocator.copyTo xrealloc fuel s.heap A B
        = .oom (heap1, A1, B1)) :
      Step .copyToThrows s { heap := heap1, allocs := (s.allocs.set i A1).set j B1 }
  | destroy (s : System) (i : Nat) (a : GenerationalRegionAllocator) (heap1 : Heap)
      (a1 : GenerationalRegionAllocator)
      (hi : s.allocs[i]? = some a)
      (h : GenerationalRegionAllocator.destruct s.heap a = (heap1, a1)) :
      Step .destroy s { heap := heap1, allocs := s.allocs.eraseIdx i }

/-- The states a program reaches from the empty state by operations of the
allowed kinds, while it never has `2^24` or more allocators alive at a time (so
that no 32-bit reference count can wrap). -/
inductive Reachable (allowed : OpKind → Prop) : System → Prop where
  | init : Reachable allowed { heap := [], allocs := [] }
  | step (k : OpKind) (s s1 : System) (hs : Reachable allowed s) (hk : allowed k)
      (hstep : Step k s s1) (hlive : 256 * s1.allocs.length < 4294967296) :
      Reachable allowed s1

/-- An allocator with the given table and all counters 0. -/
def allocatorWithTable (table : Nat → Option Nat) : GenerationalRegionAllocator :=
  { generations := table, current_generation := 0, start_cap := 0, size_ := 0, wasted_ := 0 }

/-- The slots of the table above `current_generation` are empty, and
`current_generation` indexes the table. -/
def TopEmpty (a : GenerationalRegionAllocator) : Prop :=
  a.current_generation < 256 ∧
    ∀ i, a.current_generation < i → i < 256 → a.generations i = none

/-- The reference counts in the heap are the numbers of table entries in the
system, and every table is empty above its `current_generation`. -/
def SysInv (s : System) : Prop :=
  HeapCounts s.heap (sysRefs s.allocs) ∧ ∀ a, a ∈ s.allocs → TopEmpty a

/-- The allocators obtained from a freshly constructed one by `alloc` (returning
or throwing), `free`, a `copyTo` that returns normally, as source (with
`current_generation < 255`) or as destination of such a source, and `moveTo` as
destination, over arbitrary heaps. -/
inductive Usable : GenerationalRegionAllocator → Prop where
  | fresh (xrealloc : Nat → Nat → Option Nat) (fuel : Nat) (heap : Heap) (start_cap : Nat)
      (a : GenerationalRegionAllocator) (heap1 : Heap)
      (h : GenerationalRegionAllocator.construct xrealloc fuel heap start_cap
        = .ret a heap1) : Usable a
  | alloc (xrealloc : Nat → Nat → Option Nat) (fuel : Nat) (heap : Heap)
      (a : GenerationalRegionAllocator) (size : Int) (heap1 : Heap)
      (a1 : GenerationalRegionAllocator) (ha : Usable a)
      (h : (GenerationalRegionAllocator.alloc xrealloc fuel heap a size).post?
        = some (heap1, a1)) : Usable a1
  | free (a : GenerationalRegionAllocator) (size : Int) (ha : Usable a) :
      Usable (a.free size)
  | copySource (xrealloc : Nat → Nat → Option Nat) (fuel : Nat) (heap : Heap)
      (A B : GenerationalRegionAllocator) (heap1 : Heap)
      (A1 B1 : GenerationalRegionAllocator) (hA : Usable A)
      (hcg : A.current_generation < 255)
      (h : GenerationalRegionAllocator.copyTo xrealloc fuel heap A B
        = .ret () (heap1, A1, B1)) : Usable A1
  | copyDestination (xrealloc : Nat → Nat → Option Nat) (fuel : Nat) (heap : Heap)
      (A B : GenerationalRegionAllocator) (heap1 : Heap)
      (A1 B1 : GenerationalRegionAllocator) (hA : Usable A)
      (hcg : A.current_generation < 255)
      (h : GenerationalRegionAllocator.copyTo xrealloc fuel heap A B
        = .ret () (heap1, A1, B1)) : Usable B1
  | moveDestination (heap : Heap) (A B : GenerationalRegionAllocator) (heap1 : Heap)
      (A1 B1 : GenerationalRegionAllocator) (hA : Usable A)
      (h : GenerationalRegionAllocator.moveTo heap A B = (heap1, A1, B1)) : Usable B1

/-- Every kind of operation except a `copyTo` that throws. -/
def completedOps (k : OpKind) : Prop := k ≠ .copyToThrows

/-- Repeated forks `A.copyTo(B)` with the same destination: `k` calls in a row,
stopping at the first one that does not return normally. -/
def copyToTimes (xrealloc : Nat → Nat → Option Nat) (fuel : Nat) :
    Nat → Heap → GenerationalRegionAllocator → GenerationalRegionAllocator →
      Run (Heap × GenerationalRegionAllocator × GenerationalRegionAllocator) Unit
  | 0, heap, A, B => .ret () (heap, A, B)
  | k + 1, heap, A, B =>
    match GenerationalRegionAllocator.copyTo xrealloc fuel heap A B with
    | .ret _ s => copyToTimes xrealloc fuel k s.1 s.2.1 s.2.2
    | .oom s => .oom s
    | .undefined => .undefined
    | .timeout => .timeout

end Minisat

namespace Minisat

/-! ## Arithmetic of the growth step -/

theorem land_even_mask (x : Nat) : x &&& 4294967294 = 2 * ((x / 2) % 2147483648) := by
  have h1 : (x &&& 4294967294) / 2 = (x / 2) % 2147483648 := by
    rw [Nat.and_div_two]
    exact Nat.and_pow_two_sub_one_eq_mod (x / 2) 31
  have h2 : ¬ ((x &&& 4294967294) % 2 = 1) := by
    rw [Nat.and_mod_two_eq_one]
    omega
  omega

theorem growStep_eq (cap : Nat) :
    growStep cap
      = (cap + 2 * ((((cap / 2 + cap / 8) % 4294967296 + 2) % 4294967296 / 2) % 2147483648))
          % 4294967296 := by
  unfold growStep u32
  rw [land_even_mask, Nat.shiftRight_eq_div_pow, Nat.shiftRight_eq_div_pow]

theorem growStep_small (cap : Nat) (h : cap < 2147483648) :
    cap + 2 ≤ growStep cap ∧ growStep cap < 4294967296 := by
  rw [growStep_eq]
  have h1 : (cap / 2 + cap / 8) % 4294967296 = cap / 2 + cap / 8 :=
    Nat.mod_eq_of_lt (by omega)
  have h2 : (cap / 2 + cap / 8 + 2) % 4294967296 = cap / 2 + cap / 8 + 2 :=
    Nat.mod_eq_of_lt (by omega)
  have h3 : (cap / 2 + cap / 8 + 2) / 2 % 2147483648 = (cap / 2 + cap / 8 + 2) / 2 :=
    Nat.mod_eq_of_lt (by omega)
  rw [h1, h2, h3]
  have h4 : (cap + 2 * ((cap / 2 + cap / 8 + 2) / 2)) % 4294967296
      = cap + 2 * ((cap / 2 + cap / 8 + 2) / 2) := Nat.mod_eq_of_lt (by omega)
  rw [h4]
  omega

theorem ofInt_of_pos (size : Int) (h0 : 0 < size) (h1 : size ≤ 2147483647) :
    (ofInt size : Int) = size ∧ ofInt size < 2147483648 := by
  unfold ofInt
  omega

/-! ## The flat allocator -/

theorem capacityLoop_ret (prev_cap min_cap : Nat) :
    ∀ (fuel cap : Nat) (u : Unit) (c : Nat),
      capacityLoop prev_cap min_cap fuel cap = .ret u c →
        min_cap ≤ c ∧ (c = cap ∨ prev_cap < c) := by
  intro fuel
  induction fuel with
  | zero =>
    intro cap u c h
    unfold capacityLoop at h
    split at h
    · cases h
    · cases h
      omega
  | succ n ih =>
    intro cap u c h
    unfold capacityLoop at h
    split at h
    · split at h
      · cases h
      · have := ih _ u c h
        omega
    · cases h
      omega

theorem capacity_ret (xrealloc : Nat → Nat → Option Nat) (fuel : Nat)
    (a : RegionAllocator) (min_cap : Nat) (u : Unit) (a1 : RegionAllocator)
    (h : a.capacity xrealloc fuel min_cap = .ret u a1) :
    min_cap ≤ a1.cap ∧ a.cap ≤ a1.cap ∧ a1.sz = a.sz ∧ a1.wasted_ = a.wasted_ := by
  unfold RegionAllocator.capacity at h
  split at h
  · cases h
    omega
  · split at h
    · rename_i u1 c hloop
      have hl := capacityLoop_ret _ _ _ _ _ _ hloop
      split at h
      · split at h
        · cases h
          exact ⟨by simp only; omega, by simp only; omega, rfl, rfl⟩
        · cases h
      · cases h
    · cases h
    · cases h
    · cases h

theorem alloc_ret (xrealloc : Nat → Nat → Option Nat) (fuel : Nat)
    (a : RegionAllocator) (size : Int) (r : Nat) (a2 : RegionAllocator)
    (h : a.alloc xrealloc fuel size = .ret r a2) :
    0 < size ∧ r = a.sz ∧ a2.sz = u32 (a.sz + ofInt size) ∧ a.sz ≤ a2.sz ∧
      a2.sz ≤ a2.cap ∧ a.cap ≤ a2.cap ∧ a2.wasted_ = a.wasted_ := by
  unfold RegionAllocator.alloc at h
  split at h
  · rename_i hpos
    split at h
    · rename_i u a1 hcap
      have hc := capacity_ret _ _ _ _ _ _ hcap
      simp only at h
      split at h
      · cases h
      · rename_i hlt
        cases h
        simp only
        rw [hc.2.2.1] at hlt ⊢
        refine ⟨hpos, rfl, rfl, by omega, by omega, by omega, by omega⟩
    · cases h
    · cases h
    · cases h
  · cases h

theorem allocSeq_spec (xrealloc : Nat → Nat → Option Nat) (fuel : Nat) :
    ∀ (counts : List Nat) (a : RegionAllocator) (hs : List Nat) (a2 : RegionAllocator),
      a.sz < 4294967296 → (∀ s ∈ counts, s ≤ 2147483647) →
      allocSeq xrealloc fuel a counts = some (hs, a2) →
        hs.length = counts.length ∧ a2.sz = a.sz + counts.sum ∧
        (∀ k, k < counts.length → hs[k]? = some (a.sz + (counts.take k).sum)) ∧
        (∀ p ∈ hs.zip counts, a.sz ≤ p.1) ∧
        List.Pairwise (fun r1 r2 : Nat × Nat => r1.1 + r1.2 ≤ r2.1) (hs.zip counts) := by
  intro counts
  induction counts with
  | nil =>
    intro a hs a2 _ _ h
    simp only [allocSeq, Option.some.injEq, Prod.mk.injEq] at h
    obtain ⟨rfl, rfl⟩ := h
    simp
  | cons s ss ih =>
    intro a hs a2 hsz hint h
    unfold allocSeq at h
    split at h
    · rename_i h0 a1 halloc
      split at h
      · rename_i hs1 a3 hrest
        simp only [Option.some.injEq, Prod.mk.injEq] at h
        obtain ⟨rfl, rfl⟩ := h
        have hs_le : s ≤ 2147483647 := hint s (List.mem_cons_self s ss)
        obtain ⟨hpos, hr, hsz1, hle, -, -, -⟩ := alloc_ret _ _ _ _ _ _ halloc
        have hof := ofInt_of_pos (s : Int) hpos (by omega)
        have hofn : ofInt (s : Int) = s := by omega
        rw [hofn] at hsz1
        unfold u32 at hsz1
        have hexact : a1.sz = a.sz + s := by omega
        have hrec := ih a1 hs1 a3 (by omega)
          (fun t ht => hint t (List.mem_cons_of_mem s ht)) hrest
        obtain ⟨hlen, hsum, hidx, hlow, hpair⟩ := hrec
        refine ⟨by simp [hlen], by simp only [List.sum_cons]; omega, ?_, ?_, ?_⟩
        · intro k hk
          cases k with
          | zero => simp [hr]
          | succ j =>
            have hj : j < ss.length := by simpa using hk
            simp only [List.getElem?_cons_succ, List.take_succ_cons, List.sum_cons]
            rw [hidx j hj, hexact]
            congr 1
            omega
        · intro q hq
          simp only [List.zip_cons_cons, List.mem_cons] at hq
          rcases hq with rfl | hq
          · simp [hr]
          · have := hlow q hq
            omega
        · simp only [List.zip_cons_cons, List.pairwise_cons]
          refine ⟨?_, hpair⟩
          intro q hq
          have := hlow q hq
          omega
      · cases h
    · cases h

theorem capacityLoop_small (prev_cap min_cap : Nat) (hmin : min_cap ≤ 2147483648) :
    ∀ (fuel cap : Nat), prev_cap ≤ cap → min_cap ≤ cap + fuel →
      ∃ c, capacityLoop prev_cap min_cap fuel cap = .ret () c ∧ min_cap ≤ c := by
  intro fuel
  induction fuel with
  | zero =>
    intro cap _ h
    refine ⟨cap, ?_, by omega⟩
    unfold capacityLoop
    rw [if_neg (by omega)]
  | succ n ih =>
    intro cap hprev h
    unfold capacityLoop
    by_cases hlt : cap < min_cap
    · have hg := growStep_small cap (by omega)
      rw [if_pos hlt, if_neg (by omega)]
      exact ih (growStep cap) (by omega) (by omega)
    · rw [if_neg hlt]
      exact ⟨cap, rfl, by omega⟩

theorem alloc_on_empty (xrealloc : Nat → Nat → Option Nat) (fuel : Nat) (n : Int)
    (h0 : 0 < n) (h1 : n ≤ 2147483647) (hfuel : n ≤ (fuel : Int))
    (hx : ∀ c, ∃ p, xrealloc 0 c = some p) :
    ∃ a2, RegionAllocator.alloc xrealloc fuel
        { memory := 0, sz := 0, cap := 0, wasted_ := 0 } n = .ret 0 a2 ∧
      (a2.size : Int) = n := by
  have hof := ofInt_of_pos n h0 h1
  obtain ⟨c, hc, hcm⟩ := capacityLoop_small 0 (u32 (0 + ofInt n)) (by unfold u32; omega)
    fuel 0 (Nat.le_refl 0) (by unfold u32; omega)
  obtain ⟨p, hp⟩ := hx c
  have hm : 0 < u32 (0 + ofInt n) := by unfold u32; omega
  refine ⟨{ memory := p, sz := u32 (0 + ofInt n), cap := c, wasted_ := 0 }, ?_, ?_⟩
  · unfold RegionAllocator.alloc RegionAllocator.capacity
    simp only [if_pos h0, ge_iff_le]
    rw [if_neg (by omega)]
    simp only [hc]
    rw [if_pos (by omega)]
    simp only [hp]
    rw [if_neg (by omega)]
  · simp only [RegionAllocator.size]
    unfold u32
    omega

/-! ## The generational allocator -/

theorem release_length (heap : Heap) (p : Nat) :
    (Generation.release heap p).length = heap.length := by
  unfold Generation.release
  split
  · split <;> simp
  · rfl

theorem retain_length (heap : Heap) (p : Nat) :
    (Generation.retain heap p).length = heap.length := by
  unfold Generation.retain
  split
  · simp
  · rfl

theorem copyToBody_spec (src : Nat → Option Nat) (g : Nat)
    (s : Heap × (Nat → Option Nat)) :
    (copyToBody src g s).2 = Function.update s.2 g (src g) ∧
      (copyToBody src g s).1.length = s.1.length := by
  unfold copyToBody
  cases hs : s.2 g <;> cases hg : src g <;>
    simp [hs, hg, release_length, retain_length, Function.update_idem]

theorem copyToLoop_spec (src : Nat → Option Nat) :
    ∀ (n g : Nat) (s : Heap × (Nat → Option Nat)),
      (∀ i, (copyToLoop src n g s).2 i = if g ≤ i ∧ i < g + n then src i else s.2 i) ∧
        (copyToLoop src n g s).1.length = s.1.length := by
  intro n
  induction n with
  | zero =>
    intro g s
    refine ⟨fun i => ?_, rfl⟩
    simp only [copyToLoop]
    rw [if_neg (by omega)]
  | succ n ih =>
    intro g s
    obtain ⟨ht, hl⟩ := ih (g + 1) (copyToBody src g s)
    obtain ⟨bt, bl⟩ := copyToBody_spec src g s
    refine ⟨fun i => ?_, ?_⟩
    · simp only [copyToLoop]
      rw [ht i, bt]
      by_cases h1 : g + 1 ≤ i ∧ i < g + 1 + n
      · rw [if_pos h1, if_pos (by omega)]
      · rw [if_neg h1]
        by_cases h2 : i = g
        · subst h2
          rw [Function.update_same, if_pos (by omega)]
        · rw [Function.update_noteq h2, if_neg (by omega)]
    · simp only [copyToLoop]
      rw [hl, bl]

theorem copyTo_ret (xrealloc : Nat → Nat → Option Nat) (fuel : Nat) (heap : Heap)
    (A B : GenerationalRegionAllocator) (u : Unit) (heap1 : Heap)
    (A1 B1 : GenerationalRegionAllocator)
    (h : GenerationalRegionAllocator.copyTo xrealloc fuel heap A B = .ret u (heap1, A1, B1)) :
    u32 (A.current_generation + 1) < 256 ∧
      A1.current_generation = u32 (A.current_generation + 1) ∧
      B1.current_generation = u32 (A.current_generation + 1) ∧
      A1.generations = Function.update A.generations (u32 (A.current_generation + 1))
        (some heap.length) ∧
      (∀ i, i < 256 → B1.generations i =
        Function.update A.generations (u32 (A.current_generation + 1))
          (some (heap.length + 1)) i) ∧
      heap1.length = heap.length + 2 ∧
      (∀ q, q < heap.length → heap1[q]? =
        (copyToLoop A.generations GENERATION_COUNT 0 (heap, B.generations)).1[q]?) ∧
      B1.size_ = A.size_ ∧ B1.wasted_ = A.wasted_ ∧
      A1.size_ = A.size_ ∧ A1.wasted_ = A.wasted_ ∧
      A1.start_cap = A.start_cap ∧ B1.start_cap = B.start_cap := by
  obtain ⟨ht, hl⟩ := copyToLoop_spec A.generations GENERATION_COUNT 0 (heap, B.generations)
  unfold GenerationalRegionAllocator.copyTo at h
  simp only at h
  split at h
  · rename_i hlt
    split at h
    · split at h
      · simp only [Run.ret.injEq, Prod.mk.injEq] at h
        obtain ⟨-, rfl, rfl, rfl⟩ := h
        have hG : GENERATION_COUNT = 256 := rfl
        rw [hG] at hlt
        have hl2 : (copyToLoop A.generations GENERATION_COUNT 0 (heap, B.generations)).1.length
            = heap.length := hl
        refine ⟨hlt, rfl, rfl, ?_, ?_, ?_, ?_, rfl, rfl, rfl, rfl, rfl, rfl⟩
        · simp only [hl]
        · intro i hi
          simp only [hl, List.length_append, List.length_singleton]
          by_cases hc : i = u32 (A.current_generation + 1)
          · subst hc
            simp only [Function.update_same]
          · rw [Function.update_noteq hc, Function.update_noteq hc, ht i]
            rw [if_pos (by omega)]
        · simp [hl]
        · intro q hq
          rw [List.getElem?_append_left (by simp; omega),
            List.getElem?_append_left (by omega)]
      · cases h
      · cases h
      · cases h
    · cases h
    · cases h
    · cases h
  · cases h

theorem deref_set_ne (heap : Heap) (p q : Nat) (v : Option Generation) (h : q ≠ p) :
    Heap.deref (heap.set p v) q = heap.deref q := by
  unfold Heap.deref
  rw [List.getElem?_set_ne (Ne.symm h)]

theorem galloc_frame (xrealloc : Nat → Nat → Option Nat) (fuel : Nat) (heap : Heap)
    (a : GenerationalRegionAllocator) (size : Int) (heap2 : Heap)
    (a2 : GenerationalRegionAllocator)
    (h : (GenerationalRegionAllocator.alloc xrealloc fuel heap a size).post?
      = some (heap2, a2)) :
    ∃ p, a.generations a.current_generation = some p ∧
      (∀ q, q ≠ p → heap2[q]? = heap[q]?) ∧
      (∀ q, q ≠ p → heap2.deref q = heap.deref q) ∧
      a2.generations = a.generations ∧
      a2.current_generation = a.current_generation ∧
      heap2.length = heap.length := by
  unfold GenerationalRegionAllocator.alloc at h
  split at h
  · split at h
    · cases h
    · rename_i p hp
      refine ⟨p, hp, ?_⟩
      split at h
      · cases h
      · split at h
        · simp only at h
          split at h <;>
          · simp only [Run.post?, Option.some.injEq, Prod.mk.injEq] at h
            obtain ⟨rfl, rfl⟩ := h
            exact ⟨fun q hq => List.getElem?_set_ne (Ne.symm hq),
              fun q hq => deref_set_ne _ _ _ _ hq, rfl, rfl, List.length_set _ _ _⟩
        · simp only [Run.post?, Option.some.injEq, Prod.mk.injEq] at h
          obtain ⟨rfl, rfl⟩ := h
          exact ⟨fun q hq => List.getElem?_set_ne (Ne.symm hq),
            fun q hq => deref_set_ne _ _ _ _ hq, rfl, rfl, List.length_set _ _ _⟩
        · cases h
        · cases h
  · cases h

theorem generation_lt (r : Nat) : InnerRef.generation r < 256 := by
  unfold InnerRef.generation
  omega

/-! ## Claims about the flat allocator -/

/-- C1: successive successful `alloc` calls on a flat allocator with counts
`s1..sN` (each an `int`, at most `INT_MAX`): the k-th call returns the size the
allocator had just before it, which is the starting size plus `s1+...+s(k-1)`;
`size()` after the calls is the starting size plus `s1+...+sN` (the plain sum for
a fresh allocator, whose size is 0); and the index ranges
`[handle_k, handle_k + s_k)` are pairwise disjoint. -/
theorem C1_alloc_sequence (xrealloc : Nat → Nat → Option Nat) (fuel : Nat)
    (a : RegionAllocator) (counts hs : List Nat) (a2 : RegionAllocator)
    (hsz : a.sz < 4294967296) (hint : ∀ s ∈ counts, s ≤ 2147483647)
    (hrun : allocSeq xrealloc fuel a counts = some (hs, a2)) :
    hs.length = counts.length ∧
      (∀ k, k < counts.length → hs[k]? = some (a.size + (counts.take k).sum)) ∧
      a2.size = a.size + counts.sum ∧
      List.Pairwise rangesDisjoint (hs.zip counts) := by
  obtain ⟨hlen, hsum, hidx, -, hpair⟩ :=
    allocSeq_spec xrealloc fuel counts a hs a2 hsz hint hrun
  refine ⟨hlen, hidx, hsum, hpair.imp ?_⟩
  intro r1 r2 hle n hn
  omega

/-- Witness for C1: an allocator built with `start_cap = 16` (capacity 24, size 0);
`alloc(3)` returns 0 and `alloc(5)` returns 3, the size ends at 8. -/
theorem C1_alloc_sequence_witness :
    allocSeq xreallocFixed 8 { memory := 4096, sz := 0, cap := 24, wasted_ := 0 } [3, 5]
        = some ([0, 3], { memory := 4096, sz := 8, cap := 24, wasted_ := 0 }) ∧
      ([0, 3] : List Nat).length = [3, 5].length ∧
      (∀ k, k < [3, 5].length → ([0, 3] : List Nat)[k]? = some (0 + (([3, 5] : List Nat).take k).sum)) ∧
      (8 : Nat) = 0 + ([3, 5] : List Nat).sum ∧
      List.Pairwise rangesDisjoint (([0, 3] : List Nat).zip [3, 5]) :=
  ⟨by decide,
    C1_alloc_sequence xreallocFixed 8 { memory := 4096, sz := 0, cap := 24, wasted_ := 0 }
      [3, 5] [0, 3] { memory := 4096, sz := 8, cap := 24, wasted_ := 0 }
      (by decide) (by decide) (by decide)⟩

/-- C2 at its failing input: an allocator built with `start_cap = 16` performs
`alloc(1)`; the handle returned is 0, which is `size() - 1`; `lea(0)` is the
buffer start, and `ael` of that address is `Ref_Undef`, not 0. -/
theorem C2_ael_of_lea_last_slot :
    RegionAllocator.construct xreallocFixed 8 16
        = .ret () { memory := 4096, sz := 0, cap := 24, wasted_ := 0 } ∧
      RegionAllocator.alloc xreallocFixed 8
          { memory := 4096, sz := 0, cap := 24, wasted_ := 0 } 1
        = .ret 0 { memory := 4096, sz := 1, cap := 24, wasted_ := 0 } ∧
      RegionAllocator.lea { memory := 4096, sz := 1, cap := 24, wasted_ := 0 } 0 = some 4096 ∧
      RegionAllocator.ael { memory := 4096, sz := 1, cap := 24, wasted_ := 0 } 4096
        = Ref_Undef ∧
      RegionAllocator.ael { memory := 4096, sz := 1, cap := 24, wasted_ := 0 } 4096 ≠ 0 := by
  refine ⟨by decide, by decide, by decide, by decide, by decide⟩

/-- C6: in a flat allocator with `sz <= cap`, an `alloc(count)` with
`0 < count <= INT_MAX` and `sz + count > 2^32 - 1` throws `OutOfMemoryException`
(whatever the fuel and the system allocator). -/
theorem C6_alloc_size_wrap_oom (xrealloc : Nat → Nat → Option Nat) (fuel : Nat)
    (a : RegionAllocator) (count : Int)
    (hinv : a.sz ≤ a.cap) (hcap : a.cap < 4294967296)
    (h0 : 0 < count) (h1 : count ≤ 2147483647)
    (hwrap : (a.sz : Int) + count > 4294967295) :
    ∃ s, a.alloc xrealloc fuel count = .oom s := by
  have hof := ofInt_of_pos count h0 h1
  refine ⟨{ a with sz := u32 (a.sz + ofInt count) }, ?_⟩
  unfold RegionAllocator.alloc RegionAllocator.capacity
  simp only [if_pos h0, ge_iff_le]
  rw [if_pos (by unfold u32; omega)]
  simp only
  rw [if_pos (by unfold u32; omega)]

/-- Witness for C6: size and capacity 4280241450, `alloc(2147483647)`. -/
theorem C6_alloc_size_wrap_oom_witness :
    ∃ s, RegionAllocator.alloc xreallocFixed 0
      { memory := 4096, sz := 4280241450, cap := 4280241450, wasted_ := 0 } 2147483647
        = .oom s :=
  C6_alloc_size_wrap_oom xreallocFixed 0
    { memory := 4096, sz := 4280241450, cap := 4280241450, wasted_ := 0 } 2147483647
    (by decide) (by decide) (by decide) (by decide) (by decide)

set_option maxRecDepth 100000 in
/-- C7 at its failing input: constructing `RegionAllocator(4289141474)` runs
`capacity(4289141474)` from capacity 0.  The 44th capacity is 4280241450, still
below the request; the next growth step wraps to 2660425062, which is not
greater than 4280241450 but is greater than the saved `prev_cap = 0`; the loop
goes on and the call returns normally with capacity 4289141474. -/
theorem C7_capacity_returns_after_wrapped_step :
    Nat.iterate growStep 44 0 = 4280241450 ∧
      growStep 4280241450 = 2660425062 ∧
      capacityLoopWrapped 0 4289141474 833 0 = true ∧
      RegionAllocator.construct xreallocFixed 833 4289141474
        = .ret () { memory := 4096, sz := 0, cap := 4289141474, wasted_ := 0 } := by
  refine ⟨by rfl, by rfl, by rfl, by rfl⟩

/-- C8: when `capacity(min_cap)` returns normally the new capacity is at least
`min_cap` and at least the old capacity; and after a successful `alloc(count)`
on a state with `sz <= cap`, `count > 0`, again `sz <= cap` and the capacity has
not decreased. -/
theorem C8_capacity_growth :
    (∀ (xrealloc : Nat → Nat → Option Nat) (fuel : Nat) (a : RegionAllocator)
        (min_cap : Nat) (a1 : RegionAllocator),
        a.capacity xrealloc fuel min_cap = .ret () a1 →
          min_cap ≤ a1.cap ∧ a.cap ≤ a1.cap) ∧
    (∀ (xrealloc : Nat → Nat → Option Nat) (fuel : Nat) (a : RegionAllocator)
        (count : Int) (h : Nat) (a2 : RegionAllocator),
        a.sz ≤ a.cap → 0 < count → a.alloc xrealloc fuel count = .ret h a2 →
          a2.sz ≤ a2.cap ∧ a.cap ≤ a2.cap) := by
  constructor
  · intro xrealloc fuel a min_cap a1 h
    have := capacity_ret _ _ _ _ _ _ h
    exact ⟨this.1, this.2.1⟩
  · intro xrealloc fuel a count h a2 _ _ hr
    have := alloc_ret _ _ _ _ _ _ hr
    exact ⟨this.2.2.2.2.1, this.2.2.2.2.2.1⟩

/-- Witness for C8: `capacity(30)` from capacity 24 gives capacity 40, and
`alloc(5)` at size 22, capacity 24 gives size 27, capacity 40. -/
theorem C8_capacity_growth_witness :
    (30 ≤ 40 ∧ 24 ≤ 40) ∧ (27 ≤ 40 ∧ 24 ≤ 40) :=
  ⟨C8_capacity_growth.1 xreallocFixed 8
      { memory := 4096, sz := 22, cap := 24, wasted_ := 0 } 30
      { memory := 4096, sz := 22, cap := 40, wasted_ := 0 } (by decide),
    C8_capacity_growth.2 xreallocFixed 8
      { memory := 4096, sz := 22, cap := 24, wasted_ := 0 } 5 22
      { memory := 4096, sz := 27, cap := 40, wasted_ := 0 }
      (by decide) (by decide) (by decide)⟩

/-- C10: after `A.moveTo(B)` the allocator `B` has the buffer, size, capacity
and wasted counter `A` had, so every handle below the old size of `A` resolves
in `B` to the element it resolved to in `A`; `A` has a null buffer and size,
capacity and wasted counter 0, which is the state `RegionAllocator(0)`
constructs; and a following `A.alloc(n)` (with `0 < n <= INT_MAX`, enough fuel
and a system allocator that succeeds) returns handle 0 and leaves size `n`. -/
theorem C10_flat_moveTo (A B : RegionAllocator) :
    (A.moveTo B).2 = A ∧
      (∀ h, h < A.size →
        (A.moveTo B).2.subscript h = A.subscript h ∧ (A.moveTo B).2.lea h = A.lea h ∧
          (A.moveTo B).2.subscript h = some (A.memory + h)) ∧
      (A.moveTo B).1 = { memory := 0, sz := 0, cap := 0, wasted_ := 0 } ∧
      (∀ (xrealloc : Nat → Nat → Option Nat) (fuel : Nat),
        RegionAllocator.construct xrealloc fuel 0 = .ret () (A.moveTo B).1) ∧
      (∀ (xrealloc : Nat → Nat → Option Nat) (fuel : Nat) (n : Int),
        0 < n → n ≤ 2147483647 → n ≤ (fuel : Int) →
        (∀ c, ∃ p, xrealloc 0 c = some p) →
          ∃ a2, (A.moveTo B).1.alloc xrealloc fuel n = .ret 0 a2 ∧ (a2.size : Int) = n) := by
  refine ⟨rfl, ?_, rfl, ?_, ?_⟩
  · intro h hlt
    refine ⟨rfl, rfl, ?_⟩
    simp only [RegionAllocator.size] at hlt
    simp [RegionAllocator.moveTo, RegionAllocator.subscript, hlt]
  · intro xrealloc fuel
    simp [RegionAllocator.construct, RegionAllocator.capacity, RegionAllocator.moveTo]
  · intro xrealloc fuel n h0 h1 hfuel hx
    exact alloc_on_empty xrealloc fuel n h0 h1 hfuel hx

/-- Witness for C10: after the move a following `alloc(7)` on the source returns
handle 0 and leaves size 7. -/
theorem C10_flat_moveTo_witness :
    ∃ a2, (RegionAllocator.moveTo { memory := 4096, sz := 8, cap := 24, wasted_ := 1 }
        { memory := 8192, sz := 2, cap := 40, wasted_ := 0 }).1.alloc xreallocFixed 7 7
          = .ret 0 a2 ∧ (a2.size : Int) = 7 :=
  (C10_flat_moveTo { memory := 4096, sz := 8, cap := 24, wasted_ := 1 }
      { memory := 8192, sz := 2, cap := 40, wasted_ := 0 }).2.2.2.2 xreallocFixed 7 7
    (by decide) (by decide) (by decide) (fun _ => ⟨4096, rfl⟩)

/-! ## Claims about the generational allocator -/

set_option maxRecDepth 100000 in
/-- C3 at its failing input: two allocators are constructed with `start_cap = 16`,
the first is forked into the second (`current_generation` 0 -> 1, the new current
generation is empty), and `alloc(2)` on the fork returns the handle 1.  The
claim requires `h >> 24 == 1` and `h & 0xFFFFFF == 0`; the handle returned has
`h >> 24 == 0` and `h & 0xFFFFFF == 1`, because the `generation` bit-field is the
low byte. -/
theorem C3_alloc_after_fork_handle :
    ∃ a heap1 b heap2 heap3 A1 B1 s,
      GenerationalRegionAllocator.construct xreallocBySize 8 [] 16 = .ret a heap1 ∧
      GenerationalRegionAllocator.construct xreallocBySize 8 heap1 16 = .ret b heap2 ∧
      GenerationalRegionAllocator.copyTo xreallocBySize 8 heap2 a b
        = .ret () (heap3, A1, B1) ∧
      B1.current_generation = 1 ∧
      (∃ p g, B1.generations B1.current_generation = some p ∧ heap3.deref p = some g ∧
        g.allocator.size = 0) ∧
      GenerationalRegionAllocator.alloc xreallocBySize 8 heap3 B1 2 = .ret 1 s ∧
      1 >>> 24 ≠ B1.current_generation ∧ 1 &&& 16777215 ≠ 0 :=
  ⟨_, _, _, _, _, _, _, _, rfl, rfl, rfl, rfl, ⟨_, _, rfl, rfl, rfl⟩, rfl,
    by decide, by decide⟩

set_option maxRecDepth 100000 in
/-- C9 at its failing inputs.  A fresh allocator (`start_cap = 16`) after
`alloc(30)`: the flat `alloc(1)` of the current generation returns the raw index
30, which is below `2^24`, and the generational `alloc(1)` throws.  And with
`2^24` elements in the current generation the flat `alloc(1)` returns the raw
index `2^24`, and the generational `alloc(1)` returns normally.  The test
`ref.fields.generation != 0` reads the low byte of the raw index. -/
theorem C9_alloc_throws_below_tag_limit :
    (∃ a heap1 heap2 a2 s,
      GenerationalRegionAllocator.construct xreallocBySize 8 [] 16 = .ret a heap1 ∧
      GenerationalRegionAllocator.alloc xreallocBySize 8 heap1 a 30 = .ret 0 (heap2, a2) ∧
      (∃ p g al, a2.generations a2.current_generation = some p ∧
        heap2.deref p = some g ∧
        g.allocator.alloc xreallocBySize 8 1 = .ret 30 al) ∧
      (30 : Nat) < 16777216 ∧
      GenerationalRegionAllocator.alloc xreallocBySize 8 heap2 a2 1 = .oom s) ∧
    (RegionAllocator.alloc xreallocBySize 8
        { memory := 4096, sz := 16777216, cap := 20515458, wasted_ := 0 } 1
        = .ret 16777216 { memory := 4096, sz := 16777217, cap := 20515458, wasted_ := 0 } ∧
      (16777216 : Nat) ≤ 16777216 ∧
      ∃ s, GenerationalRegionAllocator.alloc xreallocBySize 8
        [some { ref_count := 1,
                allocator := { memory := 4096, sz := 16777216, cap := 20515458,
                               wasted_ := 0 } }]
        { exampleA with size_ := 16777216 } 1 = .ret 16777216 s) :=
  ⟨⟨_, _, _, _, _, rfl, rfl, ⟨_, _, _, rfl, rfl, rfl⟩, by decide, rfl⟩,
    by decide, by decide, _, rfl⟩

theorem growStep_eq_of_lt (cap : Nat) (h : cap < 4294967296) :
    growStep cap = (cap + 2 * ((cap / 2 + cap / 8 + 2) / 2)) % 4294967296 := by
  rw [growStep_eq]
  have h1 : (cap / 2 + cap / 8) % 4294967296 = cap / 2 + cap / 8 :=
    Nat.mod_eq_of_lt (by omega)
  have h2 : (cap / 2 + cap / 8 + 2) % 4294967296 = cap / 2 + cap / 8 + 2 :=
    Nat.mod_eq_of_lt (by omega)
  have h3 : (cap / 2 + cap / 8 + 2) / 2 % 2147483648 = (cap / 2 + cap / 8 + 2) / 2 :=
    Nat.mod_eq_of_lt (by omega)
  rw [h1, h2, h3]

theorem growStep_ne_zero (cap : Nat) (h : cap < 4294967296) : growStep cap ≠ 0 := by
  rw [growStep_eq_of_lt cap h]
  intro h0
  have hS : cap + 2 * ((cap / 2 + cap / 8 + 2) / 2) = 4294967296 := by omega
  have hlo : 2643056792 ≤ cap := by omega
  have hhi : cap ≤ 2643056799 := by omega
  interval_cases cap <;> omega

theorem growStep_even (cap : Nat) (h : cap % 2 = 0) :
    growStep cap % 2 = 0 ∧ growStep cap < 4294967296 := by
  rw [growStep_eq]
  omega

theorem capacityLoop_diverges :
    ∀ (fuel cap : Nat), cap < 4294967296 → cap % 2 = 0 →
      capacityLoop 0 4294967295 fuel cap = .timeout := by
  intro fuel
  induction fuel with
  | zero =>
    intro cap hlt hev
    unfold capacityLoop
    rw [if_pos (by omega)]
  | succ n ih =>
    intro cap hlt hev
    have hne := growStep_ne_zero cap hlt
    have hg := growStep_even cap hev
    unfold capacityLoop
    rw [if_pos (by omega), if_neg (by omega)]
    exact ih _ hg.2 hg.1

theorem capacity_oom (xrealloc : Nat → Nat → Option Nat) (fuel : Nat)
    (a : RegionAllocator) (min_cap : Nat) (a1 : RegionAllocator)
    (h : a.capacity xrealloc fuel min_cap = .oom a1) :
    a1.sz = a.sz ∧ a1.wasted_ = a.wasted_ ∧ a1.memory = a.memory := by
  unfold RegionAllocator.capacity at h
  split at h
  · cases h
  · split at h
    · split at h
      · split at h
        · cases h
        · cases h
          exact ⟨rfl, rfl, rfl⟩
      · cases h
    · cases h
      exact ⟨rfl, rfl, rfl⟩
    · cases h
    · cases h

/-! ## Claims C12, C14, C15, C20 -/

/-- C12 at its failing input: an allocator built with `start_cap = 16` is empty
(buffer at 4096, size 0); the address 4099 is not in `[4096, 4096 + 0)`, yet
`ael` returns 3 instead of `Ref_Undef`, because `sz-1` wraps to `0xFFFFFFFF`. -/
theorem C12_ael_on_empty_allocator :
    RegionAllocator.construct xreallocFixed 8 16
        = .ret () { memory := 4096, sz := 0, cap := 24, wasted_ := 0 } ∧
      ¬ (4096 ≤ 4099 ∧ 4099 < 4096 +
          RegionAllocator.size { memory := 4096, sz := 0, cap := 24, wasted_ := 0 }) ∧
      RegionAllocator.ael { memory := 4096, sz := 0, cap := 24, wasted_ := 0 } 4099 = 3 ∧
      RegionAllocator.ael { memory := 4096, sz := 0, cap := 24, wasted_ := 0 } 4099
        ≠ Ref_Undef := by
  refine ⟨by decide, by decide, by decide, by decide⟩

/-- C14 at its failing inputs.  The handle `0x01000005`: the claim decodes it
as generation `h >> 24 = 1` and index `h & 0xFFFFFF = 5`; the bit-fields of
`InnerRef` read generation 5 and index 65536.  The handle 5 on `exampleA`
(30 elements in generation 0): the claim has `operator[]` and `lea` look up
`generations[5 >> 24] = generations[0]` and pass on the bare index 5, which is
element 5 of that generation; the code looks up `generations[5]`, a null
entry. -/
theorem C14_generation_is_low_byte :
    InnerRef.generation 16777221 = 5 ∧ InnerRef.index 16777221 = 65536 ∧
      16777221 >>> 24 = 1 ∧ 16777221 &&& 16777215 = 5 ∧
      InnerRef.generation 16777221 ≠ 16777221 >>> 24 ∧
      InnerRef.index 16777221 ≠ 16777221 &&& 16777215 ∧
      GenerationalRegionAllocator.subscript exampleHeap exampleA 5 = none ∧
      GenerationalRegionAllocator.lea exampleHeap exampleA 5 = none ∧
      exampleA.generations (InnerRef.generation 5) = none ∧
      exampleA.generations (5 >>> 24) = some 0 ∧
      (∃ g, exampleHeap.deref 0 = some g ∧
        g.allocator.subscript (5 &&& 16777215) = some 2621445) := by
  refine ⟨by decide, by decide, by decide, by decide, by decide, by decide,
    rfl, rfl, rfl, rfl, _, rfl, rfl⟩

/-- C15 refuted as stated.  Flat allocator with size and capacity 4280241450:
`alloc(2147483647)` throws and leaves the size at the wrapped sum 2132757801;
`alloc(10)` throws from the growth loop and leaves the capacity at 2660425062.
Generational allocator `exampleA`, whose current generation holds 30 elements:
`alloc(1)` throws and leaves that generation with 31 elements. -/
theorem C15_state_changed_after_oom :
    (RegionAllocator.alloc xreallocFixed 0
        { memory := 4096, sz := 4280241450, cap := 4280241450, wasted_ := 0 } 2147483647
        = .oom { memory := 4096, sz := 2132757801, cap := 4280241450, wasted_ := 0 } ∧
      (2132757801 : Nat) ≠ 4280241450) ∧
    (RegionAllocator.alloc xreallocFixed 1
        { memory := 4096, sz := 4280241450, cap := 4280241450, wasted_ := 0 } 10
        = .oom { memory := 4096, sz := 4280241450, cap := 2660425062, wasted_ := 0 } ∧
      (2660425062 : Nat) ≠ 4280241450) ∧
    (GenerationalRegionAllocator.alloc xreallocBySize 8 exampleHeap exampleA 1
        = .oom (exampleHeap.set 0
            (some { ref_count := 1,
                    allocator := { memory := 2621440, sz := 31, cap := 40, wasted_ := 0 } }),
          exampleA) ∧
      exampleA.generations exampleA.current_generation = some 0 ∧
      exampleHeap.deref 0
        = some { ref_count := 1,
                 allocator := { memory := 2621440, sz := 30, cap := 40, wasted_ := 0 } } ∧
      (31 : Nat) ≠ 30) := by
  refine ⟨⟨by decide, by decide⟩, ⟨by decide, by decide⟩, ⟨rfl, rfl, rfl, by decide⟩⟩

/-- C15 as amended: when the flat `alloc` throws, the wasted counter is as
before and the size is either as before or, when the overflow check threw, the
wrapped sum (which is below the old size); when the generational `alloc` throws,
the allocator itself (table, `size_`, `wasted_`, `current_generation`) is as
before and every generation other than the current one is unchanged. -/
theorem C15_alloc_oom_state :
    (∀ (xrealloc : Nat → Nat → Option Nat) (fuel : Nat) (a : RegionAllocator)
        (size : Int) (a1 : RegionAllocator),
        a.alloc xrealloc fuel size = .oom a1 →
          a1.wasted_ = a.wasted_ ∧
            (a1.sz = a.sz ∨ (a1.sz = u32 (a.sz + ofInt size) ∧ a1.sz < a.sz))) ∧
    (∀ (xrealloc : Nat → Nat → Option Nat) (fuel : Nat) (heap : Heap)
        (a : GenerationalRegionAllocator) (size : Int) (heap1 : Heap)
        (a1 : GenerationalRegionAllocator),
        GenerationalRegionAllocator.alloc xrealloc fuel heap a size = .oom (heap1, a1) →
          a1 = a ∧
            ∃ p, a.generations a.current_generation = some p ∧
              ∀ q, q ≠ p → heap1.deref q = heap.deref q) := by
  constructor
  · intro xrealloc fuel a size a1 h
    unfold RegionAllocator.alloc at h
    split at h
    · split at h
      · rename_i u a2 hcap
        have hc := capacity_ret _ _ _ _ _ _ hcap
        simp only at h
        split at h
        · rename_i hlt
          cases h
          simp only at hlt ⊢
          rw [hc.2.2.1] at hlt ⊢
          exact ⟨hc.2.2.2, Or.inr ⟨rfl, hlt⟩⟩
        · cases h
      · rename_i a2 hcap
        have hc := capacity_oom _ _ _ _ _ hcap
        cases h
        exact ⟨hc.2.1, Or.inl hc.1⟩
      · cases h
      · cases h
    · cases h
  · intro xrealloc fuel heap a size heap1 a1 h
    have hpost : (GenerationalRegionAllocator.alloc xrealloc fuel heap a size).post?
        = some (heap1, a1) := by
      rw [h]
      rfl
    obtain ⟨p, hp, -, hderef, -, -, -⟩ := galloc_frame _ _ _ _ _ _ _ hpost
    refine ⟨?_, p, hp, hderef⟩
    unfold GenerationalRegionAllocator.alloc at h
    split at h
    · split at h
      · cases h
      · split at h
        · cases h
        · split at h
          · split at h
            · cases h
              rfl
            · cases h
          · cases h
            rfl
          · cases h
          · cases h
    · cases h

/-- Witness for C15 as amended: the flat `alloc(2147483647)` at size 4280241450. -/
theorem C15_alloc_oom_state_witness :
    (0 : Nat) = 0 ∧
      ((2132757801 : Nat) = 4280241450 ∨
        ((2132757801 : Nat) = u32 (4280241450 + ofInt 2147483647) ∧
          (2132757801 : Nat) < 4280241450)) :=
  C15_alloc_oom_state.1 xreallocFixed 0
    { memory := 4096, sz := 4280241450, cap := 4280241450, wasted_ := 0 } 2147483647
    { memory := 4096, sz := 2132757801, cap := 4280241450, wasted_ := 0 } (by decide)

/-- C20 at its failing input: `capacity(UINT32_MAX)` on a fresh allocator
(capacity 0), as run by `RegionAllocator(UINT32_MAX)`, never leaves its loop:
every capacity the loop reaches is even, hence below `2^32 - 1`, and never 0,
hence above the saved `prev_cap = 0`.  Whatever the fuel, the run is cut off. -/
theorem C20_capacity_loop_never_exits (xrealloc : Nat → Nat → Option Nat) (fuel : Nat) :
    capacityLoop 0 4294967295 fuel 0 = .timeout ∧
      RegionAllocator.construct xrealloc fuel 4294967295 = .timeout := by
  have h := capacityLoop_diverges fuel 0 (by decide) (by decide)
  refine ⟨h, ?_⟩
  unfold RegionAllocator.construct RegionAllocator.capacity
  simp only [ge_iff_le]
  rw [if_neg (by decide)]
  simp only [h]

end Minisat

namespace Minisat

/-! ## Counting table entries -/

theorem tableRefsUpTo_le (table : Nat → Option Nat) (p : Nat) :
    ∀ n, tableRefsUpTo table p n ≤ n := by
  intro n
  induction n with
  | zero => simp [tableRefsUpTo]
  | succ n ih =>
    simp only [tableRefsUpTo]
    split <;> omega

theorem tableRefsUpTo_congr (t1 t2 : Nat → Option Nat) (p : Nat) :
    ∀ n, (∀ i, i < n → t1 i = t2 i) → tableRefsUpTo t1 p n = tableRefsUpTo t2 p n := by
  intro n
  induction n with
  | zero => intro _; rfl
  | succ n ih =>
    intro h
    simp only [tableRefsUpTo]
    rw [ih (fun i hi => h i (by omega)), h n (by omega)]

theorem tableRefsUpTo_update_ge (table : Nat → Option Nat) (p g : Nat) (v : Option Nat)
    (n : Nat) (h : n ≤ g) :
    tableRefsUpTo (Function.update table g v) p n = tableRefsUpTo table p n :=
  tableRefsUpTo_congr _ _ p n (fun i hi => by
    have hne : i ≠ g := by omega
    rw [Function.update_noteq hne])

theorem tableRefsUpTo_update (table : Nat → Option Nat) (p g : Nat) (v : Option Nat) :
    ∀ n, g < n →
      tableRefsUpTo (Function.update table g v) p n + (if table g = some p then 1 else 0)
        = tableRefsUpTo table p n + (if v = some p then 1 else 0) := by
  intro n
  induction n with
  | zero => intro h; omega
  | succ n ih =>
    intro h
    simp only [tableRefsUpTo]
    by_cases hg : g = n
    · subst hg
      rw [Function.update_same, tableRefsUpTo_update_ge table p g v g (Nat.le_refl g)]
      omega
    · rw [Function.update_noteq (Ne.symm hg)]
      have := ih (by omega)
      omega

theorem tableRefs_update (table : Nat → Option Nat) (p g : Nat) (v : Option Nat)
    (hg : g < 256) :
    tableRefs (Function.update table g v) p + (if table g = some p then 1 else 0)
      = tableRefs table p + (if v = some p then 1 else 0) :=
  tableRefsUpTo_update table p g v GENERATION_COUNT hg

theorem tableRefsUpTo_pos (table : Nat → Option Nat) (p : Nat) :
    ∀ n i, i < n → table i = some p → 1 ≤ tableRefsUpTo table p n := by
  intro n
  induction n with
  | zero => intro i hi; omega
  | succ n ih =>
    intro i hi hp
    simp only [tableRefsUpTo]
    by_cases h : i = n
    · subst h
      rw [if_pos hp]
      omega
    · have := ih i (by omega) hp
      omega

theorem tableRefsUpTo_zero (table : Nat → Option Nat) (p : Nat) :
    ∀ n, (∀ i, i < n → table i ≠ some p) → tableRefsUpTo table p n = 0 := by
  intro n
  induction n with
  | zero => intro _; rfl
  | succ n ih =>
    intro h
    simp only [tableRefsUpTo]
    rw [ih (fun i hi => h i (by omega)), if_neg (h n (by omega))]

theorem tableRefsUpTo_exists (table : Nat → Option Nat) (p : Nat) :
    ∀ n, 1 ≤ tableRefsUpTo table p n → ∃ i, i < n ∧ table i = some p := by
  intro n
  induction n with
  | zero => intro h; simp [tableRefsUpTo] at h
  | succ n ih =>
    intro h
    simp only [tableRefsUpTo] at h
    by_cases hp : table n = some p
    · exact ⟨n, by omega, hp⟩
    · rw [if_neg hp] at h
      obtain ⟨i, hi, hip⟩ := ih (by omega)
      exact ⟨i, by omega, hip⟩

theorem tableRefs_pos (table : Nat → Option Nat) (p i : Nat) (hi : i < 256)
    (h : table i = some p) : 1 ≤ tableRefs table p :=
  tableRefsUpTo_pos table p GENERATION_COUNT i hi h

theorem tableRefs_exists (table : Nat → Option Nat) (p : Nat) (h : 1 ≤ tableRefs table p) :
    ∃ i, i < 256 ∧ table i = some p :=
  tableRefsUpTo_exists table p GENERATION_COUNT h

theorem tableRefs_le (table : Nat → Option Nat) (p : Nat) : tableRefs table p ≤ 256 :=
  tableRefsUpTo_le table p GENERATION_COUNT

theorem tableRefs_congr (t1 t2 : Nat → Option Nat) (p : Nat)
    (h : ∀ i, i < 256 → t1 i = t2 i) : tableRefs t1 p = tableRefs t2 p :=
  tableRefsUpTo_congr t1 t2 p GENERATION_COUNT h

theorem tableRefs_zero (table : Nat → Option Nat) (p : Nat)
    (h : ∀ i, i < 256 → table i ≠ some p) : tableRefs table p = 0 :=
  tableRefsUpTo_zero table p GENERATION_COUNT h

end Minisat

namespace Minisat

/-! ## The heap and reference counts -/

theorem deref_lt (heap : Heap) (p : Nat) (g : Generation) (h : heap.deref p = some g) :
    p < heap.length := by
  unfold Heap.deref at h
  by_contra hc
  rw [List.getElem?_eq_none (by omega)] at h
  cases h

theorem deref_set_self (heap : Heap) (p : Nat) (v : Option Generation)
    (h : p < heap.length) : Heap.deref (heap.set p v) p = v := by
  unfold Heap.deref
  rw [List.getElem?_set_self h]
  cases v <;> rfl

theorem deref_append_left (heap l : Heap) (p : Nat) (h : p < heap.length) :
    Heap.deref (heap ++ l) p = heap.deref p := by
  unfold Heap.deref
  rw [List.getElem?_append_left h]

theorem deref_append_new (heap : Heap) (g : Generation) :
    Heap.deref (heap ++ [some g]) heap.length = some g := by
  unfold Heap.deref
  rw [List.getElem?_concat_length]

theorem deref_none_of_ge (heap : Heap) (p : Nat) (h : heap.length ≤ p) :
    heap.deref p = none := by
  unfold Heap.deref
  rw [List.getElem?_eq_none h]

theorem HeapCounts_congr (heap : Heap) (c1 c2 : Nat → Nat) (h : ∀ p, c1 p = c2 p)
    (hc : HeapCounts heap c1) : HeapCounts heap c2 := by
  have : c1 = c2 := funext h
  rw [← this]
  exact hc

theorem HeapCounts_live (heap : Heap) (cnt : Nat → Nat) (hc : HeapCounts heap cnt)
    (q : Nat) (hq : 1 ≤ cnt q) : ∃ g, heap.deref q = some g ∧ g.ref_count = cnt q := by
  cases hd : heap.deref q with
  | none =>
    have := hc.2 q hd
    omega
  | some g => exact ⟨g, rfl, (hc.1 q g hd).1⟩

theorem HeapCounts_release (heap : Heap) (cnt : Nat → Nat) (hc : HeapCounts heap cnt)
    (q : Nat) (hq : 1 ≤ cnt q) (hb : cnt q < 4294967296) :
    HeapCounts (Generation.release heap q) (fun p => if p = q then cnt q - 1 else cnt p) := by
  obtain ⟨g, hg, hrc⟩ := HeapCounts_live heap cnt hc q hq
  have hlt := deref_lt heap q g hg
  unfold Generation.release
  rw [hg]
  simp only
  by_cases h1 : g.ref_count = 1
  · rw [if_pos h1]
    constructor
    · intro p g2 hp
      beta_reduce
      by_cases hpq : p = q
      · subst hpq
        rw [deref_set_self _ _ _ hlt] at hp
        cases hp
      · rw [deref_set_ne _ _ _ _ hpq] at hp
        rw [if_neg hpq]
        exact hc.1 p g2 hp
    · intro p hp
      beta_reduce
      by_cases hpq : p = q
      · subst hpq
        rw [if_pos rfl]
        omega
      · rw [deref_set_ne _ _ _ _ hpq] at hp
        rw [if_neg hpq]
        exact hc.2 p hp
  · rw [if_neg h1]
    constructor
    · intro p g2 hp
      beta_reduce
      by_cases hpq : p = q
      · subst hpq
        rw [deref_set_self _ _ _ hlt] at hp
        have hp2 := Option.some.inj hp
        subst hp2
        rw [if_pos rfl]
        simp only [u32]
        omega
      · rw [deref_set_ne _ _ _ _ hpq] at hp
        rw [if_neg hpq]
        exact hc.1 p g2 hp
    · intro p hp
      beta_reduce
      by_cases hpq : p = q
      · subst hpq
        rw [deref_set_self _ _ _ hlt] at hp
        exact absurd hp (by simp)
      · rw [deref_set_ne _ _ _ _ hpq] at hp
        rw [if_neg hpq]
        exact hc.2 p hp

theorem HeapCounts_retain (heap : Heap) (cnt : Nat → Nat) (hc : HeapCounts heap cnt)
    (q : Nat) (hq : 1 ≤ cnt q) (hb : cnt q + 1 < 4294967296) :
    HeapCounts (Generation.retain heap q) (fun p => if p = q then cnt q + 1 else cnt p) := by
  obtain ⟨g, hg, hrc⟩ := HeapCounts_live heap cnt hc q hq
  have hlt := deref_lt heap q g hg
  unfold Generation.retain
  rw [hg]
  simp only
  constructor
  · intro p g2 hp
    beta_reduce
    by_cases hpq : p = q
    · subst hpq
      rw [deref_set_self _ _ _ hlt] at hp
      cases hp
      rw [if_pos rfl]
      simp only [u32]
      omega
    · rw [deref_set_ne _ _ _ _ hpq] at hp
      rw [if_neg hpq]
      exact hc.1 p g2 hp
  · intro p hp
    beta_reduce
    by_cases hpq : p = q
    · subst hpq
      rw [deref_set_self _ _ _ hlt] at hp
      cases hp
    · rw [deref_set_ne _ _ _ _ hpq] at hp
      rw [if_neg hpq]
      exact hc.2 p hp

theorem HeapCounts_new (heap : Heap) (cnt : Nat → Nat) (hc : HeapCounts heap cnt)
    (g : Generation) (hg : g.ref_count = 1) :
    HeapCounts (heap ++ [some g]) (fun p => if p = heap.length then cnt p + 1 else cnt p) := by
  have h0 : cnt heap.length = 0 := hc.2 _ (deref_none_of_ge heap _ (Nat.le_refl _))
  constructor
  · intro p g2 hp
    beta_reduce
    by_cases hpq : p = heap.length
    · subst hpq
      rw [deref_append_new] at hp
      cases hp
      rw [if_pos rfl]
      omega
    · have hlt : p < heap.length := by
        have := deref_lt _ _ _ hp
        simp only [List.length_append, List.length_singleton] at this
        omega
      rw [deref_append_left _ _ _ hlt] at hp
      rw [if_neg hpq]
      exact hc.1 p g2 hp
  · intro p hp
    beta_reduce
    by_cases hpq : p = heap.length
    · subst hpq
      rw [deref_append_new] at hp
      cases hp
    · rw [if_neg hpq]
      by_cases hlt : p < heap.length
      · rw [deref_append_left _ _ _ hlt] at hp
        exact hc.2 p hp
      · exact hc.2 p (deref_none_of_ge heap p (by omega))

theorem HeapCounts_setAllocator (heap : Heap) (cnt : Nat → Nat) (hc : HeapCounts heap cnt)
    (q : Nat) (g : Generation) (hg : heap.deref q = some g) (al : RegionAllocator) :
    HeapCounts (heap.set q (some { g with allocator := al })) cnt := by
  have hlt := deref_lt heap q g hg
  constructor
  · intro p g2 hp
    by_cases hpq : p = q
    · subst hpq
      rw [deref_set_self _ _ _ hlt] at hp
      cases hp
      exact hc.1 p g hg
    · rw [deref_set_ne _ _ _ _ hpq] at hp
      exact hc.1 p g2 hp
  · intro p hp
    by_cases hpq : p = q
    · subst hpq
      rw [deref_set_self _ _ _ hlt] at hp
      cases hp
    · rw [deref_set_ne _ _ _ _ hpq] at hp
      exact hc.2 p hp

end Minisat

namespace Minisat

theorem HeapKeeps_refl (heap : Heap) : HeapKeeps heap heap :=
  ⟨rfl, fun _ g1 h => ⟨g1, h, rfl⟩⟩

theorem HeapKeeps_trans (h1 h2 h3 : Heap) (a : HeapKeeps h1 h2) (b : HeapKeeps h2 h3) :
    HeapKeeps h1 h3 := by
  refine ⟨by rw [b.1, a.1], ?_⟩
  intro p g3 hp
  obtain ⟨g2, hg2, e2⟩ := b.2 p g3 hp
  obtain ⟨g1, hg1, e1⟩ := a.2 p g2 hg2
  exact ⟨g1, hg1, by rw [e2, e1]⟩

theorem HeapKeeps_release (heap : Heap) (q : Nat) :
    HeapKeeps heap (Generation.release heap q) := by
  refine ⟨release_length heap q, ?_⟩
  intro p g1 hp
  unfold Generation.release at hp
  cases hq : heap.deref q with
  | none =>
    rw [hq] at hp
    exact ⟨g1, hp, rfl⟩
  | some g =>
    rw [hq] at hp
    simp only at hp
    have hlt := deref_lt heap q g hq
    by_cases hpq : p = q
    · subst hpq
      split at hp
      · rw [deref_set_self _ _ _ hlt] at hp
        cases hp
      · rw [deref_set_self _ _ _ hlt] at hp
        have hp2 := Option.some.inj hp
        subst hp2
        exact ⟨g, hq, rfl⟩
    · split at hp
      · rw [deref_set_ne _ _ _ _ hpq] at hp
        exact ⟨g1, hp, rfl⟩
      · rw [deref_set_ne _ _ _ _ hpq] at hp
        exact ⟨g1, hp, rfl⟩

theorem HeapKeeps_retain (heap : Heap) (q : Nat) :
    HeapKeeps heap (Generation.retain heap q) := by
  refine ⟨retain_length heap q, ?_⟩
  intro p g1 hp
  unfold Generation.retain at hp
  cases hq : heap.deref q with
  | none =>
    rw [hq] at hp
    exact ⟨g1, hp, rfl⟩
  | some g =>
    rw [hq] at hp
    simp only at hp
    have hlt := deref_lt heap q g hq
    by_cases hpq : p = q
    · subst hpq
      rw [deref_set_self _ _ _ hlt] at hp
      have hp2 := Option.some.inj hp
      subst hp2
      exact ⟨g, hq, rfl⟩
    · rw [deref_set_ne _ _ _ _ hpq] at hp
      exact ⟨g1, hp, rfl⟩

theorem tableRefs_update_none (table : Nat → Option Nat) (p g : Nat) (hg : g < 256) :
    tableRefs (Function.update table g none) p + (if table g = some p then 1 else 0)
      = tableRefs table p := by
  have hu := tableRefs_update table p g none hg
  have hn : ¬ ((none : Option Nat) = some p) := by simp
  rw [if_neg hn] at hu
  omega

theorem tableRefs_update_some (table : Nat → Option Nat) (p g q : Nat) (hg : g < 256)
    (hnone : table g = none) :
    tableRefs (Function.update table g (some q)) p
      = tableRefs table p + (if q = p then 1 else 0) := by
  have hu := tableRefs_update table p g (some q) hg
  have hn : ¬ (table g = some p) := by simp [hnone]
  rw [if_neg hn] at hu
  by_cases hqp : q = p
  · subst hqp
    rw [if_pos rfl] at hu ⊢
    omega
  · have hne : ¬ (some q = some p) := fun he => hqp (Option.some.inj he)
    rw [if_neg hne] at hu
    rw [if_neg hqp]
    omega

theorem release_slot (heap : Heap) (table : Nat → Option Nat) (g q : Nat)
    (base : Nat → Nat) (hg : g < 256)
    (hc : HeapCounts heap (fun p => base p + tableRefs table p))
    (hb : ∀ p, base p + tableRefs table p < 4294967296)
    (hq : table g = some q) :
    HeapCounts (Generation.release heap q)
      (fun p => base p + tableRefs (Function.update table g none) p) := by
  have hpos : 1 ≤ tableRefs table q := tableRefs_pos table q g hg hq
  have h := HeapCounts_release heap _ hc q (by omega) (hb q)
  refine HeapCounts_congr _ _ _ ?_ h
  intro p
  beta_reduce
  have hu := tableRefs_update_none table p g hg
  by_cases hpq : p = q
  · subst hpq
    rw [if_pos rfl]
    rw [if_pos hq] at hu
    omega
  · rw [if_neg hpq]
    have hne : ¬ (table g = some p) := by
      rw [hq]
      intro he
      exact hpq (Option.some.inj he).symm
    rw [if_neg hne] at hu
    omega

theorem retain_slot (heap : Heap) (table : Nat → Option Nat) (g q : Nat)
    (base : Nat → Nat) (hg : g < 256)
    (hc : HeapCounts heap (fun p => base p + tableRefs table p))
    (hnone : table g = none) (hq : 1 ≤ base q)
    (hb : base q + tableRefs table q + 1 < 4294967296) :
    HeapCounts (Generation.retain heap q)
      (fun p => base p + tableRefs (Function.update table g (some q)) p) := by
  have h := HeapCounts_retain heap _ hc q (by omega) (by omega)
  refine HeapCounts_congr _ _ _ ?_ h
  intro p
  beta_reduce
  have hu := tableRefs_update_some table p g q hg hnone
  by_cases hpq : p = q
  · subst hpq
    rw [if_pos rfl]
    rw [if_pos rfl] at hu
    omega
  · rw [if_neg hpq]
    rw [if_neg (fun he => hpq he.symm)] at hu
    omega

theorem copyToBody_counts (src : Nat → Option Nat) (ext : Nat → Nat) (g : Nat)
    (s : Heap × (Nat → Option Nat)) (hg : g < 256)
    (hb : ∀ p, ext p + 513 < 4294967296)
    (hc : HeapCounts s.1 (fun p => (tableRefs src p + ext p) + tableRefs s.2 p)) :
    HeapCounts (copyToBody src g s).1
        (fun p => (tableRefs src p + ext p) + tableRefs (copyToBody src g s).2 p) ∧
      HeapKeeps s.1 (copyToBody src g s).1 := by
  have hle : ∀ (t : Nat → Option Nat) p, tableRefs t p ≤ 256 := tableRefs_le
  -- the state after the release of the old occupant
  have h1 : ∃ h1 t1, (match s.2 g with
        | some p => (Generation.release s.1 p, Function.update s.2 g none)
        | none => s) = (h1, t1) ∧
      HeapCounts h1 (fun p => (tableRefs src p + ext p) + tableRefs t1 p) ∧
      t1 g = none ∧ HeapKeeps s.1 h1 := by
    cases hs : s.2 g with
    | none => exact ⟨s.1, s.2, rfl, hc, hs, HeapKeeps_refl _⟩
    | some q =>
      refine ⟨_, _, rfl, ?_, Function.update_same _ _ _, HeapKeeps_release _ _⟩
      exact release_slot s.1 s.2 g q _ hg hc
        (fun p => by have := hle src p; have := hle s.2 p; have := hb p; omega) hs
  obtain ⟨h1, t1, e1, hc1, hn1, hk1⟩ := h1
  unfold copyToBody
  simp only [e1]
  cases hsrc : src g with
  | none =>
    simp only
    refine ⟨?_, hk1⟩
    refine HeapCounts_congr _ _ _ ?_ hc1
    intro p
    have hu := tableRefs_update_none t1 p g hg
    have hn : ¬ (t1 g = some p) := by simp [hn1]
    rw [if_neg hn] at hu
    omega
  | some q =>
    simp only
    refine ⟨?_, HeapKeeps_trans _ _ _ hk1 (HeapKeeps_retain _ _)⟩
    exact retain_slot h1 t1 g q _ hg hc1 hn1
      (by have := tableRefs_pos src q g hg hsrc; omega)
      (by have := hle src q; have := hle t1 q; have := hb q; omega)

theorem copyToLoop_counts (src : Nat → Option Nat) (ext : Nat → Nat)
    (hb : ∀ p, ext p + 513 < 4294967296) :
    ∀ (n g : Nat) (s : Heap × (Nat → Option Nat)), g + n ≤ 256 →
      HeapCounts s.1 (fun p => (tableRefs src p + ext p) + tableRefs s.2 p) →
      HeapCounts (copyToLoop src n g s).1
          (fun p => (tableRefs src p + ext p) + tableRefs (copyToLoop src n g s).2 p) ∧
        HeapKeeps s.1 (copyToLoop src n g s).1 := by
  intro n
  induction n with
  | zero =>
    intro g s _ hc
    exact ⟨hc, HeapKeeps_refl _⟩
  | succ n ih =>
    intro g s hgn hc
    obtain ⟨hc1, hk1⟩ := copyToBody_counts src ext g s (by omega) hb hc
    obtain ⟨hc2, hk2⟩ := ih (g + 1) (copyToBody src g s) (by omega) hc1
    exact ⟨hc2, HeapKeeps_trans _ _ _ hk1 hk2⟩

end Minisat

namespace Minisat

/-! ## The loops of `moveTo` and of the destructor -/

theorem moveToBody_tables (g : Nat)
    (s : Heap × (Nat → Option Nat) × (Nat → Option Nat)) :
    (moveToBody g s).2.1 = Function.update s.2.1 g none ∧
      (moveToBody g s).2.2 = Function.update s.2.2 g (s.2.1 g) := by
  unfold moveToBody
  cases hs : s.2.2 g <;> simp [hs, Function.update_idem]

theorem moveToLoop_tables :
    ∀ (n g : Nat) (s : Heap × (Nat → Option Nat) × (Nat → Option Nat)) (i : Nat),
      (moveToLoop n g s).2.1 i = (if g ≤ i ∧ i < g + n then none else s.2.1 i) ∧
        (moveToLoop n g s).2.2 i = (if g ≤ i ∧ i < g + n then s.2.1 i else s.2.2 i) := by
  intro n
  induction n with
  | zero =>
    intro g s i
    simp only [moveToLoop]
    rw [if_neg (by omega), if_neg (by omega)]
    exact ⟨rfl, rfl⟩
  | succ n ih =>
    intro g s i
    obtain ⟨b1, b2⟩ := moveToBody_tables g s
    obtain ⟨h1, h2⟩ := ih (g + 1) (moveToBody g s) i
    simp only [moveToLoop]
    rw [h1, h2, b1, b2]
    by_cases hi : i = g
    · subst hi
      have c1 : ¬ (i + 1 ≤ i ∧ i < i + 1 + n) := by omega
      have c2 : i ≤ i ∧ i < i + (n + 1) := by omega
      rw [if_neg c1, if_neg c1, if_pos c2, if_pos c2, Function.update_same,
        Function.update_same]
      exact ⟨rfl, rfl⟩
    · rw [Function.update_noteq hi, Function.update_noteq hi]
      by_cases h3 : g + 1 ≤ i ∧ i < g + 1 + n
      · have c2 : g ≤ i ∧ i < g + (n + 1) := by omega
        rw [if_pos h3, if_pos h3, if_pos c2, if_pos c2]
        exact ⟨rfl, rfl⟩
      · have c2 : ¬ (g ≤ i ∧ i < g + (n + 1)) := by omega
        rw [if_neg h3, if_neg h3, if_neg c2, if_neg c2]
        exact ⟨rfl, rfl⟩

theorem moveToBody_counts (ext : Nat → Nat) (g : Nat)
    (s : Heap × (Nat → Option Nat) × (Nat → Option Nat)) (hg : g < 256)
    (hb : ∀ p, ext p + 513 < 4294967296)
    (hc : HeapCounts s.1 (fun p => (ext p + tableRefs s.2.1 p) + tableRefs s.2.2 p)) :
    HeapCounts (moveToBody g s).1
        (fun p => (ext p + tableRefs (moveToBody g s).2.1 p)
          + tableRefs (moveToBody g s).2.2 p) ∧
      HeapKeeps s.1 (moveToBody g s).1 := by
  have hle : ∀ (t : Nat → Option Nat) p, tableRefs t p ≤ 256 := tableRefs_le
  have h1 : ∃ h1 t1, (match s.2.2 g with
        | some p => (Generation.release s.1 p, Function.update s.2.2 g none)
        | none => (s.1, s.2.2)) = (h1, t1) ∧
      HeapCounts h1 (fun p => (ext p + tableRefs s.2.1 p) + tableRefs t1 p) ∧
      t1 g = none ∧ HeapKeeps s.1 h1 := by
    cases hs : s.2.2 g with
    | none => exact ⟨s.1, s.2.2, rfl, hc, hs, HeapKeeps_refl _⟩
    | some q =>
      refine ⟨_, _, rfl, ?_, Function.update_same _ _ _, HeapKeeps_release _ _⟩
      exact release_slot s.1 s.2.2 g q _ hg hc
        (fun p => by have := hle s.2.1 p; have := hle s.2.2 p; have := hb p; omega) hs
  obtain ⟨h1, t1, e1, hc1, hn1, hk1⟩ := h1
  unfold moveToBody
  simp only [e1]
  refine ⟨?_, hk1⟩
  refine HeapCounts_congr _ _ _ ?_ hc1
  intro p
  have hu1 := tableRefs_update_none s.2.1 p g hg
  cases hsg : s.2.1 g with
  | none =>
    have hu2 := tableRefs_update_none t1 p g hg
    have hn : ¬ (t1 g = some p) := by simp [hn1]
    have hn2 : ¬ (s.2.1 g = some p) := by simp [hsg]
    rw [if_neg hn] at hu2
    rw [if_neg hn2] at hu1
    omega
  | some q =>
    have hu2 := tableRefs_update_some t1 p g q hg hn1
    by_cases hqp : q = p
    · subst hqp
      rw [if_pos hsg] at hu1
      rw [if_pos rfl] at hu2
      omega
    · have hn2 : ¬ (s.2.1 g = some p) := by
        rw [hsg]
        intro he
        exact hqp (Option.some.inj he)
      rw [if_neg hn2] at hu1
      rw [if_neg hqp] at hu2
      omega

theorem moveToLoop_counts (ext : Nat → Nat) (hb : ∀ p, ext p + 513 < 4294967296) :
    ∀ (n g : Nat) (s : Heap × (Nat → Option Nat) × (Nat → Option Nat)), g + n ≤ 256 →
      HeapCounts s.1 (fun p => (ext p + tableRefs s.2.1 p) + tableRefs s.2.2 p) →
      HeapCounts (moveToLoop n g s).1
          (fun p => (ext p + tableRefs (moveToLoop n g s).2.1 p)
            + tableRefs (moveToLoop n g s).2.2 p) ∧
        HeapKeeps s.1 (moveToLoop n g s).1 := by
  intro n
  induction n with
  | zero =>
    intro g s _ hc
    exact ⟨hc, HeapKeeps_refl _⟩
  | succ n ih =>
    intro g s hgn hc
    obtain ⟨hc1, hk1⟩ := moveToBody_counts ext g s (by omega) hb hc
    obtain ⟨hc2, hk2⟩ := ih (g + 1) (moveToBody g s) (by omega) hc1
    exact ⟨hc2, HeapKeeps_trans _ _ _ hk1 hk2⟩

theorem destructBody_table (g : Nat) (s : Heap × (Nat → Option Nat)) :
    (destructBody g s).2 = Function.update s.2 g none := by
  unfold destructBody
  cases hs : s.2 g with
  | none =>
    simp only
    funext i
    by_cases hi : i = g
    · subst hi
      rw [Function.update_same, hs]
    · rw [Function.update_noteq hi]
  | some q => rfl

theorem destructLoop_table :
    ∀ (n g : Nat) (s : Heap × (Nat → Option Nat)) (i : Nat),
      (destructLoop n g s).2 i = (if g ≤ i ∧ i < g + n then none else s.2 i) := by
  intro n
  induction n with
  | zero =>
    intro g s i
    simp only [destructLoop]
    rw [if_neg (by omega)]
  | succ n ih =>
    intro g s i
    simp only [destructLoop]
    rw [ih (g + 1) (destructBody g s) i, destructBody_table]
    by_cases hi : i = g
    · subst hi
      rw [if_neg (by omega), if_pos (by omega), Function.update_same]
    · rw [Function.update_noteq hi]
      by_cases h3 : g + 1 ≤ i ∧ i < g + 1 + n
      · rw [if_pos h3, if_pos (by omega)]
      · rw [if_neg h3, if_neg (by omega)]

theorem destructBody_counts (ext : Nat → Nat) (g : Nat)
    (s : Heap × (Nat → Option Nat)) (hg : g < 256)
    (hb : ∀ p, ext p + 256 < 4294967296)
    (hc : HeapCounts s.1 (fun p => ext p + tableRefs s.2 p)) :
    HeapCounts (destructBody g s).1 (fun p => ext p + tableRefs (destructBody g s).2 p) ∧
      HeapKeeps s.1 (destructBody g s).1 := by
  unfold destructBody
  cases hs : s.2 g with
  | none => exact ⟨hc, HeapKeeps_refl _⟩
  | some q =>
    refine ⟨?_, HeapKeeps_release _ _⟩
    exact release_slot s.1 s.2 g q _ hg hc
      (fun p => by have := tableRefs_le s.2 p; have := hb p; omega) hs

theorem destructLoop_counts (ext : Nat → Nat) (hb : ∀ p, ext p + 256 < 4294967296) :
    ∀ (n g : Nat) (s : Heap × (Nat → Option Nat)), g + n ≤ 256 →
      HeapCounts s.1 (fun p => ext p + tableRefs s.2 p) →
      HeapCounts (destructLoop n g s).1
          (fun p => ext p + tableRefs (destructLoop n g s).2 p) ∧
        HeapKeeps s.1 (destructLoop n g s).1 := by
  intro n
  induction n with
  | zero =>
    intro g s _ hc
    exact ⟨hc, HeapKeeps_refl _⟩
  | succ n ih =>
    intro g s hgn hc
    obtain ⟨hc1, hk1⟩ := destructBody_counts ext g s (by omega) hb hc
    obtain ⟨hc2, hk2⟩ := ih (g + 1) (destructBody g s) (by omega) hc1
    exact ⟨hc2, HeapKeeps_trans _ _ _ hk1 hk2⟩

end Minisat

namespace Minisat

/-! ## The member functions on well-counted heaps -/

theorem generation_construct_ret (xrealloc : Nat → Nat → Option Nat) (fuel start_cap : Nat)
    (g : Generation) (u : Unit)
    (h : Generation.construct xrealloc fuel start_cap = .ret g u) :
    g.ref_count = 1 ∧ g.allocator.sz = 0 := by
  unfold Generation.construct at h
  split at h
  · rename_i u1 al hal
    have hc := capacity_ret _ _ _ _ _ _ hal
    simp only [Run.ret.injEq] at h
    obtain ⟨rfl, -⟩ := h
    exact ⟨rfl, hc.2.2.1⟩
  · cases h
  · cases h
  · cases h

theorem construct_ret (xrealloc : Nat → Nat → Option Nat) (fuel : Nat) (heap : Heap)
    (start_cap : Nat) (a : GenerationalRegionAllocator) (heap1 : Heap)
    (h : GenerationalRegionAllocator.construct xrealloc fuel heap start_cap = .ret a heap1) :
    ∃ g, heap1 = heap ++ [some g] ∧ g.ref_count = 1 ∧ g.allocator.sz = 0 ∧
      a.generations = Function.update (fun _ => none) 0 (some heap.length) ∧
      a.current_generation = 0 ∧ a.size_ = 0 ∧ a.wasted_ = 0 ∧ a.start_cap = start_cap := by
  unfold GenerationalRegionAllocator.construct at h
  split at h
  · rename_i g u hg
    have hgen := generation_construct_ret _ _ _ _ _ hg
    simp only [Run.ret.injEq] at h
    obtain ⟨rfl, rfl⟩ := h
    exact ⟨g, rfl, hgen.1, hgen.2, rfl, rfl, rfl, rfl, rfl⟩
  · cases h
  · cases h
  · cases h

theorem galloc_post (xrealloc : Nat → Nat → Option Nat) (fuel : Nat) (heap : Heap)
    (a : GenerationalRegionAllocator) (size : Int) (heap1 : Heap)
    (a1 : GenerationalRegionAllocator)
    (h : (GenerationalRegionAllocator.alloc xrealloc fuel heap a size).post?
      = some (heap1, a1)) :
    ∃ p g al, a.current_generation < 256 ∧
      a.generations a.current_generation = some p ∧ heap.deref p = some g ∧
      heap1 = heap.set p (some { g with allocator := al }) ∧
      a1.generations = a.generations ∧ a1.current_generation = a.current_generation ∧
      a1.wasted_ = a.wasted_ ∧ a1.start_cap = a.start_cap := by
  unfold GenerationalRegionAllocator.alloc at h
  split at h
  · rename_i hcg
    split at h
    · cases h
    · rename_i p hp
      split at h
      · cases h
      · rename_i g hg
        split at h
        · rename_i r al hal
          simp only at h
          split at h <;>
          · simp only [Run.post?, Option.some.injEq, Prod.mk.injEq] at h
            obtain ⟨rfl, rfl⟩ := h
            exact ⟨p, g, al, hcg, hp, hg, rfl, rfl, rfl, rfl, rfl⟩
        · rename_i al hal
          simp only [Run.post?, Option.some.injEq, Prod.mk.injEq] at h
          obtain ⟨rfl, rfl⟩ := h
          exact ⟨p, g, al, hcg, hp, hg, rfl, rfl, rfl, rfl, rfl⟩
        · cases h
        · cases h
  · cases h

theorem copyTo_ret_full (xrealloc : Nat → Nat → Option Nat) (fuel : Nat) (heap : Heap)
    (A B : GenerationalRegionAllocator) (u : Unit) (heap1 : Heap)
    (A1 B1 : GenerationalRegionAllocator)
    (h : GenerationalRegionAllocator.copyTo xrealloc fuel heap A B = .ret u (heap1, A1, B1)) :
    ∃ g1 g2, g1.ref_count = 1 ∧ g1.allocator.sz = 0 ∧ g2.ref_count = 1 ∧
      g2.allocator.sz = 0 ∧
      heap1 = ((copyToLoop A.generations GENERATION_COUNT 0 (heap, B.generations)).1
        ++ [some g1]) ++ [some g2] := by
  unfold GenerationalRegionAllocator.copyTo at h
  simp only at h
  split at h
  · split at h
    · rename_i g1 u1 hg1
      split at h
      · rename_i g2 u2 hg2
        simp only [Run.ret.injEq, Prod.mk.injEq] at h
        obtain ⟨-, rfl, -, -⟩ := h
        have e1 := generation_construct_ret _ _ _ _ _ hg1
        have e2 := generation_construct_ret _ _ _ _ _ hg2
        exact ⟨g1, g2, e1.1, e1.2, e2.1, e2.2, rfl⟩
      · cases h
      · cases h
      · cases h
    · cases h
    · cases h
    · cases h
  · cases h

theorem moveTo_spec (heap : Heap) (A B : GenerationalRegionAllocator) :
    (∀ i, i < 256 →
        (GenerationalRegionAllocator.moveTo heap A B).2.2.generations i = A.generations i) ∧
      (∀ i, i < 256 →
        (GenerationalRegionAllocator.moveTo heap A B).2.1.generations i = none) ∧
      (GenerationalRegionAllocator.moveTo heap A B).2.2.size_ = A.size_ ∧
      (GenerationalRegionAllocator.moveTo heap A B).2.2.wasted_ = A.wasted_ ∧
      (GenerationalRegionAllocator.moveTo heap A B).2.2.current_generation
        = A.current_generation ∧
      (GenerationalRegionAllocator.moveTo heap A B).2.1.size_ = 0 ∧
      (GenerationalRegionAllocator.moveTo heap A B).2.1.wasted_ = 0 ∧
      (GenerationalRegionAllocator.moveTo heap A B).2.1.current_generation = 0 := by
  have hG : GENERATION_COUNT = 256 := rfl
  simp only [GenerationalRegionAllocator.moveTo]
  refine ⟨?_, ?_, trivial, trivial, trivial, trivial, trivial, trivial⟩
  · intro i hi
    have := (moveToLoop_tables GENERATION_COUNT 0 (heap, A.generations, B.generations) i).2
    rw [if_pos (by omega)] at this
    exact this
  · intro i hi
    have := (moveToLoop_tables GENERATION_COUNT 0 (heap, A.generations, B.generations) i).1
    rw [if_pos (by omega)] at this
    exact this

theorem moveTo_counts (heap : Heap) (A B : GenerationalRegionAllocator) (ext : Nat → Nat)
    (hb : ∀ p, ext p + 513 < 4294967296)
    (hc : HeapCounts heap
      (fun p => (ext p + tableRefs A.generations p) + tableRefs B.generations p)) :
    HeapCounts (GenerationalRegionAllocator.moveTo heap A B).1
        (fun p => (ext p
          + tableRefs (GenerationalRegionAllocator.moveTo heap A B).2.1.generations p)
          + tableRefs (GenerationalRegionAllocator.moveTo heap A B).2.2.generations p) ∧
      HeapKeeps heap (GenerationalRegionAllocator.moveTo heap A B).1 := by
  have h := moveToLoop_counts ext hb GENERATION_COUNT 0 (heap, A.generations, B.generations)
    (by unfold GENERATION_COUNT; omega) hc
  simp only [GenerationalRegionAllocator.moveTo]
  exact h

theorem destruct_spec (heap : Heap) (a : GenerationalRegionAllocator) :
    (∀ i, i < 256 → (GenerationalRegionAllocator.destruct heap a).2.generations i = none) ∧
      (GenerationalRegionAllocator.destruct heap a).2.current_generation
        = a.current_generation := by
  have hG : GENERATION_COUNT = 256 := rfl
  simp only [GenerationalRegionAllocator.destruct]
  refine ⟨?_, trivial⟩
  intro i hi
  have := destructLoop_table GENERATION_COUNT 0 (heap, a.generations) i
  rw [if_pos (by omega)] at this
  exact this

theorem destruct_counts (heap : Heap) (a : GenerationalRegionAllocator) (ext : Nat → Nat)
    (hb : ∀ p, ext p + 256 < 4294967296)
    (hc : HeapCounts heap (fun p => ext p + tableRefs a.generations p)) :
    HeapCounts (GenerationalRegionAllocator.destruct heap a).1
        (fun p => ext p
          + tableRefs (GenerationalRegionAllocator.destruct heap a).2.generations p) ∧
      HeapKeeps heap (GenerationalRegionAllocator.destruct heap a).1 := by
  have h := destructLoop_counts ext hb GENERATION_COUNT 0 (heap, a.generations)
    (by unfold GENERATION_COUNT; omega) hc
  simp only [GenerationalRegionAllocator.destruct]
  exact h

theorem copyTo_counts (xrealloc : Nat → Nat → Option Nat) (fuel : Nat) (heap : Heap)
    (A B : GenerationalRegionAllocator) (u : Unit) (heap1 : Heap)
    (A1 B1 : GenerationalRegionAllocator) (ext : Nat → Nat)
    (hb : ∀ p, ext p + 513 < 4294967296)
    (hc : HeapCounts heap
      (fun p => (ext p + tableRefs A.generations p) + tableRefs B.generations p))
    (hcg : A.current_generation < 255)
    (htop : A.generations (A.current_generation + 1) = none)
    (h : GenerationalRegionAllocator.copyTo xrealloc fuel heap A B = .ret u (heap1, A1, B1)) :
    HeapCounts heap1
      (fun p => (ext p + tableRefs A1.generations p) + tableRefs B1.generations p) := by
  obtain ⟨g1, g2, r1, -, r2, -, rfl⟩ := copyTo_ret_full _ _ _ _ _ _ _ _ _ h
  obtain ⟨-, -, -, hA, hB, -⟩ := copyTo_ret _ _ _ _ _ _ _ _ _ h
  have hu : u32 (A.current_generation + 1) = A.current_generation + 1 := by
    unfold u32
    omega
  rw [hu] at hA hB
  obtain ⟨ht, hl⟩ := copyToLoop_spec A.generations GENERATION_COUNT 0 (heap, B.generations)
  have hl2 : (copyToLoop A.generations GENERATION_COUNT 0 (heap, B.generations)).1.length
      = heap.length := hl
  have hloop := (copyToLoop_counts A.generations ext hb GENERATION_COUNT 0
    (heap, B.generations) (by unfold GENERATION_COUNT; omega)
    (HeapCounts_congr _ _ _ (fun p => by dsimp only; omega) hc)).1
  have hG : GENERATION_COUNT = 256 := rfl
  -- the table of `to` after the loop counts like the table of `*this`
  have hsame : ∀ p,
      tableRefs (copyToLoop A.generations GENERATION_COUNT 0 (heap, B.generations)).2 p
        = tableRefs A.generations p := by
    intro p
    apply tableRefs_congr
    intro i hi
    rw [ht i, if_pos (by omega)]
  have hn1 := HeapCounts_new _ _ hloop g1 r1
  have hn2 := HeapCounts_new _ _ hn1 g2 r2
  refine HeapCounts_congr _ _ _ ?_ hn2
  intro p
  beta_reduce
  simp only [List.length_append, List.length_singleton, hl2]
  have eA : tableRefs A1.generations p
      = tableRefs A.generations p + (if heap.length = p then 1 else 0) := by
    rw [hA]
    exact tableRefs_update_some A.generations p _ _ (by omega) htop
  have eB : tableRefs B1.generations p
      = tableRefs A.generations p + (if heap.length + 1 = p then 1 else 0) := by
    rw [tableRefs_congr B1.generations _ p hB]
    exact tableRefs_update_some A.generations p _ _ (by omega) htop
  rw [eA, eB, hsame p]
  by_cases h1 : p = heap.length
  · subst h1
    rw [if_neg (by omega), if_pos rfl, if_pos rfl, if_neg (by omega)]
    omega
  · by_cases h2 : p = heap.length + 1
    · subst h2
      rw [if_pos rfl, if_neg (by omega), if_neg (by omega), if_pos rfl]
      omega
    · rw [if_neg h2, if_neg h1, if_neg (fun e => h1 e.symm), if_neg (fun e => h2 e.symm)]
      omega

end Minisat

namespace Minisat

set_option maxRecDepth 100000 in
theorem example_counts :
    HeapCounts exampleHeap
      (fun p => (0 + tableRefs exampleA.generations p) + tableRefs exampleB.generations p) := by
  have hA : ∀ p i, i < 256 → exampleA.generations i ≠ some (p + 2) := by
    intro p i _ h
    simp only [exampleA, Function.update_apply] at h
    split at h <;> simp at h
  have hB : ∀ p i, i < 256 → exampleB.generations i ≠ some (p + 2) := by
    intro p i _ h
    simp only [exampleB, Function.update_apply] at h
    split at h <;> simp at h
  constructor
  · intro p g hp
    match p with
    | 0 =>
      cases hp
      exact ⟨by decide, by decide⟩
    | 1 =>
      cases hp
      exact ⟨by decide, by decide⟩
    | p + 2 =>
      simp [Heap.deref, exampleHeap] at hp
  · intro p hp
    match p with
    | 0 => simp [Heap.deref, exampleHeap] at hp
    | 1 => simp [Heap.deref, exampleHeap] at hp
    | p + 2 =>
      beta_reduce
      rw [tableRefs_zero _ _ (hA p), tableRefs_zero _ _ (hB p)]

theorem subscript_some (heap : Heap) (a : GenerationalRegionAllocator) (h e : Nat)
    (hs : GenerationalRegionAllocator.subscript heap a h = some e) :
    ∃ p g, a.generations (InnerRef.generation h) = some p ∧ heap.deref p = some g ∧
      g.allocator.subscript (InnerRef.setGeneration h 0) = some e := by
  unfold GenerationalRegionAllocator.subscript at hs
  split at hs
  · cases hs
  · rename_i p hp
    split at hs
    · cases hs
    · rename_i g hg
      exact ⟨p, g, hp, hg, hs⟩

/-- C11: after `A.moveTo(B)` every slot `i` in 0..255 of `B` holds the generation
`A` held at slot `i` before the call, the size, wasted counter and
`current_generation` of `B` are those `A` had, every slot of `A` is empty and
its size, wasted counter and `current_generation` are 0; and when the reference
counts in the heap agree with the table entries (those of `A`, of `B` and `ext p`
further ones held elsewhere), every handle that resolved in `A` before the call
resolves in `B` to the same element. -/
theorem C11_generational_moveTo (heap : Heap) (A B : GenerationalRegionAllocator) :
    (∀ i, i < 256 →
        (GenerationalRegionAllocator.moveTo heap A B).2.2.generations i = A.generations i) ∧
      (GenerationalRegionAllocator.moveTo heap A B).2.2.size = A.size ∧
      (GenerationalRegionAllocator.moveTo heap A B).2.2.wasted = A.wasted ∧
      (GenerationalRegionAllocator.moveTo heap A B).2.2.current_generation
        = A.current_generation ∧
      (∀ i, i < 256 →
        (GenerationalRegionAllocator.moveTo heap A B).2.1.generations i = none) ∧
      (GenerationalRegionAllocator.moveTo heap A B).2.1.size = 0 ∧
      (GenerationalRegionAllocator.moveTo heap A B).2.1.wasted = 0 ∧
      (GenerationalRegionAllocator.moveTo heap A B).2.1.current_generation = 0 ∧
      (∀ ext : Nat → Nat, (∀ p, ext p + 513 < 4294967296) →
        HeapCounts heap
          (fun p => (ext p + tableRefs A.generations p) + tableRefs B.generations p) →
        ∀ h e, GenerationalRegionAllocator.subscript heap A h = some e →
          GenerationalRegionAllocator.subscript
            (GenerationalRegionAllocator.moveTo heap A B).1
            (GenerationalRegionAllocator.moveTo heap A B).2.2 h = some e) := by
  obtain ⟨hB, hA, e1, e2, e3, e4, e5, e6⟩ := moveTo_spec heap A B
  refine ⟨hB, e1, e2, e3, hA, e4, e5, e6, ?_⟩
  intro ext hb hc h e hs
  obtain ⟨hc1, hk⟩ := moveTo_counts heap A B ext hb hc
  obtain ⟨p, g, hp, hg, hsub⟩ := subscript_some heap A h e hs
  have hgen := generation_lt h
  have hBp : (GenerationalRegionAllocator.moveTo heap A B).2.2.generations
      (InnerRef.generation h) = some p := by
    rw [hB _ hgen, hp]
  have hpos := tableRefs_pos _ p _ hgen hBp
  obtain ⟨g1, hg1, -⟩ := HeapCounts_live _ _ hc1 p (by omega)
  obtain ⟨g0, hg0, hal⟩ := hk.2 p g1 hg1
  rw [hg] at hg0
  have hgg : g = g0 := Option.some.inj hg0
  subst hgg
  unfold GenerationalRegionAllocator.subscript
  rw [hBp]
  simp only [hg1, hal]
  exact hsub

set_option maxRecDepth 100000 in
/-- Witness for C11: `exampleA.moveTo(exampleB)`; handle 0 (the handle `alloc(30)`
returned) resolves in `exampleB` afterwards to the element it was in `exampleA`. -/
theorem C11_generational_moveTo_witness :
    GenerationalRegionAllocator.subscript exampleHeap exampleA 0 = some 2621440 ∧
      GenerationalRegionAllocator.subscript
        (GenerationalRegionAllocator.moveTo exampleHeap exampleA exampleB).1
        (GenerationalRegionAllocator.moveTo exampleHeap exampleA exampleB).2.2 0
          = some 2621440 :=
  ⟨rfl, (C11_generational_moveTo exampleHeap exampleA exampleB).2.2.2.2.2.2.2.2
    (fun _ => 0) (fun _ => by norm_num) example_counts 0 2621440 rfl⟩

end Minisat

namespace Minisat

/-! ## The shape of the generation table -/

theorem copyTo_ret_tables (xrealloc : Nat → Nat → Option Nat) (fuel : Nat) (heap : Heap)
    (A B : GenerationalRegionAllocator) (u : Unit) (heap1 : Heap)
    (A1 B1 : GenerationalRegionAllocator)
    (h : GenerationalRegionAllocator.copyTo xrealloc fuel heap A B = .ret u (heap1, A1, B1)) :
    (∀ i, 256 ≤ i → i ≠ u32 (A.current_generation + 1) →
        B1.generations i = B.generations i) ∧
      B1.generations (u32 (A.current_generation + 1)) = some (heap.length + 1) := by
  obtain ⟨ht, hl⟩ := copyToLoop_spec A.generations GENERATION_COUNT 0 (heap, B.generations)
  have hl2 : (copyToLoop A.generations GENERATION_COUNT 0 (heap, B.generations)).1.length
      = heap.length := hl
  have hG : GENERATION_COUNT = 256 := rfl
  unfold GenerationalRegionAllocator.copyTo at h
  simp only at h
  split at h
  · split at h
    · split at h
      · simp only [Run.ret.injEq, Prod.mk.injEq] at h
        obtain ⟨-, -, -, rfl⟩ := h
        constructor
        · intro i hi hne
          simp only
          rw [Function.update_noteq hne, ht i, if_neg (by omega)]
        · simp only [Function.update_same, List.length_append, List.length_singleton, hl2]
      · cases h
      · cases h
      · cases h
    · cases h
    · cases h
    · cases h
  · cases h

theorem copyTo_returns (xrealloc : Nat → Nat → Option Nat) (fuel : Nat) (heap : Heap)
    (A B : GenerationalRegionAllocator) (g1 g2 : Generation)
    (hcg : A.current_generation < 255)
    (h1 : Generation.construct xrealloc fuel A.start_cap = .ret g1 ())
    (h2 : Generation.construct xrealloc fuel B.start_cap = .ret g2 ()) :
    ∃ s, GenerationalRegionAllocator.copyTo xrealloc fuel heap A B = .ret () s := by
  have hu : u32 (A.current_generation + 1) < GENERATION_COUNT := by
    unfold u32 GENERATION_COUNT
    omega
  unfold GenerationalRegionAllocator.copyTo
  simp only [if_pos hu, h1, h2]
  exact ⟨_, rfl⟩

theorem copyToTimes_ret (xrealloc : Nat → Nat → Option Nat) (fuel : Nat)
    (g1 g2 : Generation) :
    ∀ (k : Nat) (heap : Heap) (A B : GenerationalRegionAllocator),
      A.current_generation + k ≤ 255 →
      Generation.construct xrealloc fuel A.start_cap = .ret g1 () →
      Generation.construct xrealloc fuel B.start_cap = .ret g2 () →
      ∃ heap1 A1 B1, copyToTimes xrealloc fuel k heap A B = .ret () (heap1, A1, B1) ∧
        A1.current_generation = A.current_generation + k ∧
        (0 < k → B1.current_generation = A.current_generation + k) := by
  intro k
  induction k with
  | zero =>
    intro heap A B _ _ _
    exact ⟨heap, A, B, rfl, rfl, fun h => absurd h (by omega)⟩
  | succ k ih =>
    intro heap A B hk h1 h2
    obtain ⟨s, hs⟩ := copyTo_returns xrealloc fuel heap A B g1 g2 (by omega) h1 h2
    obtain ⟨heap1, A1, B1⟩ := s
    obtain ⟨-, cA, cB, -, -, -, -, -, -, -, -, sA, sB⟩ :=
      copyTo_ret _ _ _ _ _ _ _ _ _ hs
    have hu : u32 (A.current_generation + 1) = A.current_generation + 1 := by
      unfold u32
      omega
    rw [hu] at cA cB
    obtain ⟨heap2, A2, B2, hrun, c2, c3⟩ := ih heap1 A1 B1 (by omega)
      (by rw [sA]; exact h1) (by rw [sB]; exact h2)
    refine ⟨heap2, A2, B2, ?_, by omega, ?_⟩
    · simp only [copyToTimes, hs]
      exact hrun
    · intro _
      by_cases hk0 : 0 < k
      · have := c3 hk0
        omega
      · have hk1 : k = 0 := by omega
        subst hk1
        simp only [copyToTimes, Run.ret.injEq, Prod.mk.injEq] at hrun
        obtain ⟨-, -, -, rfl⟩ := hrun
        omega

theorem usable_shape (a : GenerationalRegionAllocator) (h : Usable a) :
    a.current_generation < 256 ∧
      (∀ i, i ≤ a.current_generation → a.generations i ≠ none) ∧
      (∀ i, a.current_generation < i → i < 256 → a.generations i = none) := by
  induction h with
  | fresh xrealloc fuel heap start_cap a heap1 h =>
    obtain ⟨g, -, -, -, ht, hc, -⟩ := construct_ret _ _ _ _ _ _ h
    rw [ht, hc]
    refine ⟨by omega, ?_, ?_⟩
    · intro i hi
      have hi0 : i = 0 := by omega
      subst hi0
      rw [Function.update_same]
      simp
    · intro i hi _
      rw [Function.update_noteq (by omega)]
  | alloc xrealloc fuel heap a size heap1 a1 _ h ih =>
    obtain ⟨p, g, al, -, -, -, -, ht, hc, -⟩ := galloc_post _ _ _ _ _ _ _ h
    rw [ht, hc]
    exact ih
  | free a size _ ih => exact ih
  | copySource xrealloc fuel heap A B heap1 A1 B1 _ hcg h ih =>
    obtain ⟨-, cA, -, hA, -⟩ := copyTo_ret _ _ _ _ _ _ _ _ _ h
    have hu : u32 (A.current_generation + 1) = A.current_generation + 1 := by
      unfold u32
      omega
    rw [hu] at cA hA
    rw [cA, hA]
    refine ⟨by omega, ?_, ?_⟩
    · intro i hi
      by_cases he : i = A.current_generation + 1
      · subst he
        rw [Function.update_same]
        simp
      · rw [Function.update_noteq he]
        exact ih.2.1 i (by omega)
    · intro i hi hlt
      rw [Function.update_noteq (by omega)]
      exact ih.2.2 i (by omega) hlt
  | copyDestination xrealloc fuel heap A B heap1 A1 B1 _ hcg h ih =>
    obtain ⟨-, -, cB, -, hB, -⟩ := copyTo_ret _ _ _ _ _ _ _ _ _ h
    have hu : u32 (A.current_generation + 1) = A.current_generation + 1 := by
      unfold u32
      omega
    rw [hu] at cB hB
    rw [cB]
    refine ⟨by omega, ?_, ?_⟩
    · intro i hi
      rw [hB i (by omega)]
      by_cases he : i = A.current_generation + 1
      · subst he
        rw [Function.update_same]
        simp
      · rw [Function.update_noteq he]
        exact ih.2.1 i (by omega)
    · intro i hi hlt
      rw [hB i hlt, Function.update_noteq (by omega)]
      exact ih.2.2 i (by omega) hlt
  | moveDestination heap A B heap1 A1 B1 _ h ih =>
    obtain ⟨hB, -, -, -, hc, -⟩ := moveTo_spec heap A B
    rw [h] at hB hc
    simp only at hB hc
    rw [hc]
    refine ⟨ih.1, ?_, ?_⟩
    · intro i hi
      rw [hB i (by omega)]
      exact ih.2.1 i hi
    · intro i hi hlt
      rw [hB i hlt]
      exact ih.2.2 i hi hlt

set_option maxRecDepth 100000 in
/-- C17 refuted as stated.  Two allocators are constructed with `start_cap = 16`
and the first is forked into the second while the system allocator is out of
memory: the first `new Generation` of `copyTo` throws after `current_generation`
was incremented, and the source is left with `current_generation = 1` and a null
`generations[1]`. -/
theorem C17_null_current_after_failed_fork :
    ∃ a heap1 b heap2 heap3 A1 B1,
      GenerationalRegionAllocator.construct xreallocBySize 8 [] 16 = .ret a heap1 ∧
      GenerationalRegionAllocator.construct xreallocBySize 8 heap1 16 = .ret b heap2 ∧
      a.current_generation = 0 ∧
      GenerationalRegionAllocator.copyTo xreallocNone 8 heap2 a b
        = .oom (heap3, A1, B1) ∧
      A1.current_generation = 1 ∧ A1.generations A1.current_generation = none :=
  ⟨_, _, _, _, _, _, _, rfl, rfl, rfl, rfl, rfl, rfl⟩

/-- C17 as amended: for every allocator obtained from a freshly constructed one by
`alloc` (returning or throwing), `free`, `copyTo` calls that return normally (as
source with `current_generation < 255`, or as destination of such a source) and
`moveTo` (as destination): `generations[current_generation]` is non-null, every
slot with index `<= current_generation` is non-null, and every slot of the table
with index `> current_generation` is empty. -/
theorem C17_table_shape (a : GenerationalRegionAllocator) (h : Usable a) :
    a.generations a.current_generation ≠ none ∧
      (∀ i, i ≤ a.current_generation → a.generations i ≠ none) ∧
      (∀ i, a.current_generation < i → i < 256 → a.generations i = none) ∧
      a.current_generation < 256 := by
  obtain ⟨h1, h2, h3⟩ := usable_shape a h
  exact ⟨h2 _ (Nat.le_refl _), h2, h3, h1⟩

set_option maxRecDepth 100000 in
/-- Witness for C17 as amended: an allocator is constructed with `start_cap = 16`,
gets `alloc(3)`, is forked into the fresh allocator `exampleB`, and the fork is
moved into an allocator with an empty table.  The allocator that received the
move has `current_generation = 1`, slots 0 and 1 non-null and slot 2 empty. -/
theorem C17_table_shape_witness :
    ∃ c, Usable c ∧ c.current_generation = 1 ∧
      c.generations c.current_generation ≠ none ∧ c.generations 0 ≠ none ∧
      c.generations 2 = none := by
  have hu : Usable _ :=
    Usable.moveDestination
      [some { ref_count := 2,
              allocator := { memory := 1572864, sz := 3, cap := 24, wasted_ := 0 } },
       none,
       some { ref_count := 1,
              allocator := { memory := 1572864, sz := 0, cap := 24, wasted_ := 0 } },
       some { ref_count := 1,
              allocator := { memory := 4325376, sz := 0, cap := 66, wasted_ := 0 } }]
      _ (allocatorWithTable (fun _ => none)) _ _ _
      (Usable.copyDestination xreallocBySize 8
        [some { ref_count := 1,
                allocator := { memory := 1572864, sz := 3, cap := 24, wasted_ := 0 } },
         some { ref_count := 1,
                allocator := { memory := 4325376, sz := 0, cap := 66, wasted_ := 0 } }]
        _ exampleB _ _ _
        (Usable.alloc xreallocBySize 8
          [some { ref_count := 1,
                  allocator := { memory := 1572864, sz := 0, cap := 24, wasted_ := 0 } }]
          _ 3 _ _ (Usable.fresh xreallocBySize 8 [] 16 _ _ rfl) rfl)
        (by decide) rfl)
      rfl
  exact ⟨_, hu, rfl, (C17_table_shape _ hu).1, (C17_table_shape _ hu).2.1 0 (by decide),
    (C17_table_shape _ hu).2.2.1 2 (by decide) (by decide)⟩

/-- C18: a `copyTo` performed with `current_generation < 255` that returns
increases `current_generation` by exactly 1, leaves it below 256 on source and
destination, installs the two new (distinct) generations at that index, which is
below 256, and leaves the table entries with other indices of the source and
all entries with index 256 or more untouched; and starting from
`current_generation = 0`, with allocators whose start capacities can be
constructed, `k <= 255` forks in a row all return, the last one leaving
`current_generation = k`. -/
theorem C18_fork_chain :
    (∀ (xrealloc : Nat → Nat → Option Nat) (fuel : Nat) (heap : Heap)
        (A B : GenerationalRegionAllocator) (heap1 : Heap)
        (A1 B1 : GenerationalRegionAllocator),
        A.current_generation < 255 →
        GenerationalRegionAllocator.copyTo xrealloc fuel heap A B
          = .ret () (heap1, A1, B1) →
          A1.current_generation = A.current_generation + 1 ∧
          B1.current_generation = A.current_generation + 1 ∧
          A1.current_generation < 256 ∧ B1.current_generation < 256 ∧
          A1.generations (A.current_generation + 1) = some heap.length ∧
          B1.generations (A.current_generation + 1) = some (heap.length + 1) ∧
          (∀ i, i ≠ A.current_generation + 1 → A1.generations i = A.generations i) ∧
          (∀ i, 256 ≤ i → B1.generations i = B.generations i)) ∧
    (∀ (xrealloc : Nat → Nat → Option Nat) (fuel : Nat) (heap : Heap)
        (A B : GenerationalRegionAllocator) (g1 g2 : Generation) (k : Nat),
        A.current_generation = 0 →
        Generation.construct xrealloc fuel A.start_cap = .ret g1 () →
        Generation.construct xrealloc fuel B.start_cap = .ret g2 () →
        k ≤ 255 →
          ∃ heap1 A1 B1,
            copyToTimes xrealloc fuel k heap A B = .ret () (heap1, A1, B1) ∧
            A1.current_generation = k ∧ (0 < k → B1.current_generation = k)) := by
  constructor
  · intro xrealloc fuel heap A B heap1 A1 B1 hcg h
    obtain ⟨-, cA, cB, hA, -⟩ := copyTo_ret _ _ _ _ _ _ _ _ _ h
    obtain ⟨hhigh, hnew⟩ := copyTo_ret_tables _ _ _ _ _ _ _ _ _ h
    have hu : u32 (A.current_generation + 1) = A.current_generation + 1 := by
      unfold u32
      omega
    rw [hu] at cA cB hA hhigh hnew
    refine ⟨cA, cB, by omega, by omega, ?_, hnew, ?_, ?_⟩
    · rw [hA, Function.update_same]
    · intro i hi
      rw [hA, Function.update_noteq hi]
    · intro i hi
      exact hhigh i hi (by omega)
  · intro xrealloc fuel heap A B g1 g2 k h0 h1 h2 hk
    obtain ⟨heap1, A1, B1, hrun, c1, c2⟩ :=
      copyToTimes_ret xrealloc fuel g1 g2 k heap A B (by omega) h1 h2
    exact ⟨heap1, A1, B1, hrun, by omega, fun hpos => by have := c2 hpos; omega⟩

set_option maxRecDepth 100000 in
/-- Witness for C18: two forks in a row from `exampleA` into `exampleB`. -/
theorem C18_fork_chain_witness :
    ∃ heap1 A1 B1,
      copyToTimes xreallocBySize 8 2 exampleHeap exampleA exampleB
        = .ret () (heap1, A1, B1) ∧
      A1.current_generation = 2 ∧ (0 < 2 → B1.current_generation = 2) :=
  C18_fork_chain.2 xreallocBySize 8 exampleHeap exampleA exampleB
    { ref_count := 1, allocator := { memory := 1572864, sz := 0, cap := 24, wasted_ := 0 } }
    { ref_count := 1, allocator := { memory := 4325376, sz := 0, cap := 66, wasted_ := 0 } }
    2 rfl (by decide) (by decide) (by decide)

end Minisat

namespace Minisat

/-! ## Counting over a system of allocators -/

theorem sysRefs_append (l : List GenerationalRegionAllocator)
    (a : GenerationalRegionAllocator) (p : Nat) :
    sysRefs (l ++ [a]) p = sysRefs l p + tableRefs a.generations p := by
  induction l with
  | nil => simp [sysRefs]
  | cons b l ih =>
    show tableRefs b.generations p + sysRefs (l ++ [a]) p
      = tableRefs b.generations p + sysRefs l p + tableRefs a.generations p
    rw [ih]
    omega

theorem sysRefs_set (l : List GenerationalRegionAllocator) :
    ∀ (i : Nat) (X Y : GenerationalRegionAllocator) (p : Nat), i < l.length →
      sysRefs (l.set i X) p + tableRefs Y.generations p
        = sysRefs (l.set i Y) p + tableRefs X.generations p := by
  induction l with
  | nil =>
    intro i X Y p h
    simp at h
  | cons b l ih =>
    intro i X Y p h
    cases i with
    | zero =>
      simp only [List.set_cons_zero, sysRefs]
      omega
    | succ i =>
      simp only [List.set_cons_succ, sysRefs]
      have := ih i X Y p (by simpa using h)
      omega

theorem set_getElem?_self (l : List GenerationalRegionAllocator) :
    ∀ (i : Nat) (a : GenerationalRegionAllocator), l[i]? = some a → l.set i a = l := by
  induction l with
  | nil =>
    intro i a h
    simp at h
  | cons b l ih =>
    intro i a h
    cases i with
    | zero =>
      simp only [List.getElem?_cons_zero, Option.some.injEq] at h
      subst h
      rfl
    | succ i =>
      simp only [List.getElem?_cons_succ] at h
      simp only [List.set_cons_succ, ih i a h]

theorem getElem?_lt (l : List GenerationalRegionAllocator) (i : Nat)
    (a : GenerationalRegionAllocator) (h : l[i]? = some a) : i < l.length := by
  by_contra hc
  rw [List.getElem?_eq_none (by omega)] at h
  cases h

theorem getElem?_mem_list (l : List GenerationalRegionAllocator) :
    ∀ (i : Nat) (a : GenerationalRegionAllocator), l[i]? = some a → a ∈ l := by
  induction l with
  | nil =>
    intro i a h
    simp at h
  | cons b l ih =>
    intro i a h
    cases i with
    | zero =>
      simp only [List.getElem?_cons_zero, Option.some.injEq] at h
      subst h
      exact List.mem_cons_self _ _
    | succ i =>
      simp only [List.getElem?_cons_succ] at h
      exact List.mem_cons_of_mem _ (ih i a h)

theorem mem_set_cases (l : List GenerationalRegionAllocator) :
    ∀ (i : Nat) (X a : GenerationalRegionAllocator), a ∈ l.set i X → a ∈ l ∨ a = X := by
  induction l with
  | nil =>
    intro i X a h
    simp at h
  | cons b l ih =>
    intro i X a h
    cases i with
    | zero =>
      simp only [List.set_cons_zero, List.mem_cons] at h
      rcases h with h | h
      · exact Or.inr h
      · exact Or.inl (List.mem_cons_of_mem _ h)
    | succ i =>
      simp only [List.set_cons_succ, List.mem_cons] at h
      rcases h with h | h
      · exact Or.inl (h ▸ List.mem_cons_self _ _)
      · rcases ih i X a h with h2 | h2
        · exact Or.inl (List.mem_cons_of_mem _ h2)
        · exact Or.inr h2

theorem sysRefs_le (l : List GenerationalRegionAllocator) (p : Nat) :
    sysRefs l p ≤ 256 * l.length := by
  induction l with
  | nil => simp [sysRefs]
  | cons b l ih =>
    simp only [sysRefs, List.length_cons]
    have := tableRefs_le b.generations p
    omega

theorem tableRefs_const_none (p : Nat) : tableRefs (fun _ => none) p = 0 :=
  tableRefs_zero _ p (fun _ _ => by simp)

theorem tableRefsUpTo_const_some (p : Nat) :
    ∀ n, tableRefsUpTo (fun _ => some p) p n = n := by
  intro n
  induction n with
  | zero => rfl
  | succ n ih => simp [tableRefsUpTo, ih]

theorem tableRefs_const_some (p : Nat) : tableRefs (fun _ => some p) p = 256 :=
  tableRefsUpTo_const_some p GENERATION_COUNT

theorem sysRefs_split1 (l : List GenerationalRegionAllocator) (i : Nat)
    (a : GenerationalRegionAllocator) (hi : l[i]? = some a) :
    ∃ ext : Nat → Nat, ∀ p,
      sysRefs l p = ext p + tableRefs a.generations p ∧
      (∀ X : GenerationalRegionAllocator,
        sysRefs (l.set i X) p = ext p + tableRefs X.generations p) ∧
      ext p + 256 ≤ 256 * l.length := by
  have hlt := getElem?_lt l i a hi
  refine ⟨fun p => sysRefs (l.set i
    (allocatorWithTable (fun _ => none))) p, ?_⟩
  intro p
  beta_reduce
  have e0 : tableRefs (allocatorWithTable (fun _ => none)).generations p = 0 :=
    tableRefs_const_none p
  have e256 : tableRefs (allocatorWithTable (fun _ => some p)).generations p = 256 :=
    tableRefs_const_some p
  have hX : ∀ X : GenerationalRegionAllocator,
      sysRefs (l.set i X) p = sysRefs (l.set i
        (allocatorWithTable (fun _ => none))) p + tableRefs X.generations p := by
    intro X
    have := sysRefs_set l i X
      (allocatorWithTable (fun _ => none)) p hlt
    rw [e0] at this
    omega
  refine ⟨?_, hX, ?_⟩
  · have := hX a
    rw [set_getElem?_self l i a hi] at this
    exact this
  · have h1 := hX (allocatorWithTable (fun _ => some p))
    rw [e256] at h1
    have h2 := sysRefs_le (l.set i
      (allocatorWithTable (fun _ => some p))) p
    rw [List.length_set] at h2
    omega

theorem sysRefs_split2 (l : List GenerationalRegionAllocator) (i j : Nat)
    (A B : GenerationalRegionAllocator) (hij : i ≠ j)
    (hi : l[i]? = some A) (hj : l[j]? = some B) :
    ∃ ext : Nat → Nat, ∀ p,
      sysRefs l p = (ext p + tableRefs A.generations p) + tableRefs B.generations p ∧
      (∀ X Y : GenerationalRegionAllocator,
        sysRefs ((l.set i X).set j Y) p
          = (ext p + tableRefs X.generations p) + tableRefs Y.generations p) ∧
      ext p + 512 ≤ 256 * l.length := by
  obtain ⟨e1, h1⟩ := sysRefs_split1 l i A hi
  have hjset : ∀ X : GenerationalRegionAllocator, (l.set i X)[j]? = some B := by
    intro X
    rw [List.getElem?_set_ne hij]
    exact hj
  refine ⟨fun p => e1 p - tableRefs B.generations p, ?_⟩
  intro p
  beta_reduce
  have e0 : tableRefs (allocatorWithTable (fun _ => none)).generations p = 0 :=
    tableRefs_const_none p
  have e256 : tableRefs (allocatorWithTable (fun _ => some p)).generations p = 256 :=
    tableRefs_const_some p
  obtain ⟨a1, a2, a3⟩ := h1 p
  -- the entry of `B` is part of what `e1` counts
  have hB : tableRefs B.generations p ≤ e1 p := by
    obtain ⟨e2, h2⟩ := sysRefs_split1 (l.set i
      (allocatorWithTable (fun _ => none))) j B (hjset _)
    have := (h2 p).1
    have := a2 (allocatorWithTable (fun _ => none))
    rw [e0] at this
    omega
  have hXY : ∀ X Y : GenerationalRegionAllocator,
      sysRefs ((l.set i X).set j Y) p
        = (e1 p - tableRefs B.generations p + tableRefs X.generations p)
          + tableRefs Y.generations p := by
    intro X Y
    obtain ⟨e2, h2⟩ := sysRefs_split1 (l.set i X) j B (hjset X)
    obtain ⟨b1, b2, -⟩ := h2 p
    have := b2 Y
    have := a2 X
    omega
  refine ⟨by omega, hXY, ?_⟩
  have h3 := hXY
    (allocatorWithTable (fun _ => some p))
    (allocatorWithTable (fun _ => some p))
  rw [e256] at h3
  have h4 := sysRefs_le ((l.set i
    (allocatorWithTable (fun _ => some p))).set j
    (allocatorWithTable (fun _ => some p))) p
  rw [List.length_set, List.length_set] at h4
  omega

end Minisat

namespace Minisat

/-! ## The reference-count invariant of a system -/

theorem reachable_bound (allowed : OpKind → Prop) (s : System)
    (h : Reachable allowed s) : 256 * s.allocs.length < 4294967296 := by
  cases h with
  | init => simp
  | step k s0 _ hs hk hstep hlive => exact hlive

theorem sysRefs_eraseIdx (l : List GenerationalRegionAllocator) :
    ∀ (i : Nat) (a : GenerationalRegionAllocator) (p : Nat), l[i]? = some a →
      sysRefs l p = sysRefs (l.eraseIdx i) p + tableRefs a.generations p := by
  induction l with
  | nil =>
    intro i a p h
    simp at h
  | cons b l ih =>
    intro i a p h
    cases i with
    | zero =>
      simp only [List.getElem?_cons_zero, Option.some.injEq] at h
      subst h
      simp only [List.eraseIdx_cons_zero, sysRefs]
      omega
    | succ i =>
      simp only [List.getElem?_cons_succ] at h
      simp only [List.eraseIdx_cons_succ, sysRefs]
      have := ih i a p h
      omega

theorem post_of_ret {σ α : Type} (r : Run σ α) (v : α) (s : σ) (h : r = .ret v s) :
    r.post? = some s := by
  rw [h]
  rfl

theorem post_of_oom {σ α : Type} (r : Run σ α) (s : σ) (h : r = .oom s) :
    r.post? = some s := by
  rw [h]
  rfl

theorem sysInv_alloc (s : System) (i : Nat) (a : GenerationalRegionAllocator)
    (xrealloc : Nat → Nat → Option Nat) (fuel : Nat) (size : Int) (heap1 : Heap)
    (a1 : GenerationalRegionAllocator) (hinv : SysInv s)
    (hi : s.allocs[i]? = some a)
    (h : (GenerationalRegionAllocator.alloc xrealloc fuel s.heap a size).post?
      = some (heap1, a1)) :
    SysInv { heap := heap1, allocs := s.allocs.set i a1 } := by
  obtain ⟨p, g, al, hcg, hp, hg, rfl, ht, hc, -, -⟩ := galloc_post _ _ _ _ _ _ _ h
  obtain ⟨ext, hext⟩ := sysRefs_split1 s.allocs i a hi
  constructor
  · refine HeapCounts_congr _ _ _ ?_ (HeapCounts_setAllocator _ _ hinv.1 p g hg al)
    intro q
    obtain ⟨e1, e2, -⟩ := hext q
    rw [e1, e2 a1, ht]
  · intro b hb
    rcases mem_set_cases _ _ _ _ hb with hb | hb
    · exact hinv.2 b hb
    · subst hb
      have := hinv.2 a (getElem?_mem_list _ _ _ hi)
      unfold TopEmpty at this ⊢
      rw [ht, hc]
      exact this

theorem sysInv_step (k : OpKind) (s s1 : System) (hk : k ≠ .copyToThrows)
    (hinv : SysInv s) (hb : 256 * s.allocs.length < 4294967296) (hstep : Step k s s1) :
    SysInv s1 := by
  cases hstep with
  | construct _ xrealloc fuel start_cap a heap1 h =>
    obtain ⟨g, rfl, hrc, -, ht, hc, -⟩ := construct_ret _ _ _ _ _ _ h
    constructor
    · refine HeapCounts_congr _ _ _ ?_ (HeapCounts_new _ _ hinv.1 g hrc)
      intro p
      beta_reduce
      rw [sysRefs_append, ht,
        tableRefs_update_some (fun _ => none) p 0 s.heap.length (by omega) rfl,
        tableRefs_const_none]
      by_cases hp : p = s.heap.length
      · subst hp
        rw [if_pos rfl, if_pos rfl]
      · rw [if_neg hp, if_neg (fun e => hp e.symm)]
        omega
    · intro b hb
      simp only [List.mem_append, List.mem_singleton] at hb
      rcases hb with hb | hb
      · exact hinv.2 b hb
      · subst hb
        unfold TopEmpty
        rw [ht, hc]
        refine ⟨by omega, ?_⟩
        intro i hi _
        rw [Function.update_noteq (by omega)]
  | alloc _ i a xrealloc fuel size r heap1 a1 hi h =>
    exact sysInv_alloc s i a xrealloc fuel size heap1 a1 hinv hi (post_of_ret _ _ _ h)
  | allocThrows _ i a xrealloc fuel size heap1 a1 hi h =>
    exact sysInv_alloc s i a xrealloc fuel size heap1 a1 hinv hi (post_of_oom _ _ h)
  | free _ i a size hi =>
    obtain ⟨ext, hext⟩ := sysRefs_split1 s.allocs i a hi
    constructor
    · refine HeapCounts_congr _ _ _ ?_ hinv.1
      intro q
      obtain ⟨e1, e2, -⟩ := hext q
      rw [e1, e2 (a.free size)]
      rfl
    · intro b hb
      rcases mem_set_cases _ _ _ _ hb with hb | hb
      · exact hinv.2 b hb
      · subst hb
        exact hinv.2 a (getElem?_mem_list _ _ _ hi)
  | moveTo _ i j A B heap1 A1 B1 hij hi hj h =>
    obtain ⟨ext, hext⟩ := sysRefs_split2 s.allocs i j A B hij hi hj
    have hbound : ∀ p, ext p + 513 < 4294967296 := by
      intro p
      have := (hext p).2.2
      omega
    have hc0 : HeapCounts s.heap
        (fun p => (ext p + tableRefs A.generations p) + tableRefs B.generations p) :=
      HeapCounts_congr _ _ _ (fun p => (hext p).1) hinv.1
    obtain ⟨hc1, -⟩ := moveTo_counts s.heap A B ext hbound hc0
    obtain ⟨mB, mA, -, -, mc, -, -, mc0⟩ := moveTo_spec s.heap A B
    rw [h] at hc1 mB mA mc mc0
    simp only at hc1 mB mA mc mc0
    have hA := hinv.2 A (getElem?_mem_list _ _ _ hi)
    constructor
    · refine HeapCounts_congr _ _ _ ?_ hc1
      intro p
      exact ((hext p).2.1 _ _).symm
    · intro b hb2
      rcases mem_set_cases _ _ _ _ hb2 with hb2 | hb2
      · rcases mem_set_cases _ _ _ _ hb2 with hb2 | hb2
        · exact hinv.2 b hb2
        · subst hb2
          unfold TopEmpty
          rw [mc0]
          exact ⟨by omega, fun i _ hlt => mA i hlt⟩
      · subst hb2
        unfold TopEmpty at hA ⊢
        rw [mc]
        exact ⟨hA.1, fun i hgt hlt => by rw [mB i hlt]; exact hA.2 i hgt hlt⟩
  | copyTo _ i j A B xrealloc fuel heap1 A1 B1 hij hi hj hcg h =>
    obtain ⟨ext, hext⟩ := sysRefs_split2 s.allocs i j A B hij hi hj
    have hbound : ∀ p, ext p + 513 < 4294967296 := by
      intro p
      have := (hext p).2.2
      omega
    have hc0 : HeapCounts s.heap
        (fun p => (ext p + tableRefs A.generations p) + tableRefs B.generations p) :=
      HeapCounts_congr _ _ _ (fun p => (hext p).1) hinv.1
    have hA := hinv.2 A (getElem?_mem_list _ _ _ hi)
    have htop : A.generations (A.current_generation + 1) = none :=
      hA.2 _ (by omega) (by omega)
    have hc1 := copyTo_counts _ _ _ _ _ _ _ _ _ ext hbound hc0 hcg htop h
    obtain ⟨-, cA, cB, tA, tB, -⟩ := copyTo_ret _ _ _ _ _ _ _ _ _ h
    have hu : u32 (A.current_generation + 1) = A.current_generation + 1 := by
      unfold u32
      omega
    rw [hu] at cA cB tA tB
    constructor
    · refine HeapCounts_congr _ _ _ ?_ hc1
      intro p
      exact ((hext p).2.1 _ _).symm
    · intro b hb2
      rcases mem_set_cases _ _ _ _ hb2 with hb2 | hb2
      · rcases mem_set_cases _ _ _ _ hb2 with hb2 | hb2
        · exact hinv.2 b hb2
        · subst hb2
          unfold TopEmpty
          rw [cA, tA]
          refine ⟨by omega, fun i hgt hlt => ?_⟩
          rw [Function.update_noteq (by omega)]
          exact hA.2 i (by omega) hlt
      · subst hb2
        unfold TopEmpty
        rw [cB]
        refine ⟨by omega, fun i hgt hlt => ?_⟩
        rw [tB i hlt, Function.update_noteq (by omega)]
        exact hA.2 i (by omega) hlt
  | copyToThrows _ i j A B xrealloc fuel heap1 A1 B1 hij hi hj hcg h =>
    exact absurd rfl hk
  | destroy _ i a heap1 a1 hi h =>
    obtain ⟨ext, hext⟩ := sysRefs_split1 s.allocs i a hi
    have hbound : ∀ p, ext p + 256 < 4294967296 := by
      intro p
      have := (hext p).2.2
      omega
    have hc0 : HeapCounts s.heap (fun p => ext p + tableRefs a.generations p) :=
      HeapCounts_congr _ _ _ (fun p => (hext p).1) hinv.1
    obtain ⟨hc1, -⟩ := destruct_counts s.heap a ext hbound hc0
    obtain ⟨dT, dc⟩ := destruct_spec s.heap a
    rw [h] at hc1 dT dc
    simp only at hc1 dT dc
    constructor
    · refine HeapCounts_congr _ _ _ ?_ hc1
      intro p
      beta_reduce
      have e1 := sysRefs_eraseIdx s.allocs i a p hi
      have e2 := (hext p).1
      have e3 : tableRefs a1.generations p = 0 := by
        apply tableRefs_zero
        intro t ht
        rw [dT t ht]
        simp
      show ext p + tableRefs a1.generations p = sysRefs (s.allocs.eraseIdx i) p
      omega
    · intro b hb2
      exact hinv.2 b (List.mem_of_mem_eraseIdx hb2)

theorem sysInv_of_reachable (allowed : OpKind → Prop)
    (hall : ∀ k, allowed k → k ≠ .copyToThrows) (s : System)
    (h : Reachable allowed s) : SysInv s := by
  induction h with
  | init =>
    constructor
    · constructor
      · intro p g hp
        simp [Heap.deref] at hp
      · intro p _
        rfl
    · intro a ha
      simp at ha
  | step k s s1 hs hk hstep _ ih =>
    exact sysInv_step k s s1 (hall k hk) ih (reachable_bound _ _ hs) hstep

end Minisat

namespace Minisat

set_option maxRecDepth 100000 in
/-- C16 refuted as stated.  Allocators `A` and `D` are constructed and `A` is
forked into `D`, so the table of `A` has two slots; `B` is constructed and the
fork `A.copyTo(B)` throws from its first `new Generation`, which leaves `B` with
the two entries of `A` and its old `current_generation = 0`; `C` is constructed
and `B` is forked into `C`.  That fork overwrites slot 1 of `B` and of `C` with
the two new generations without a `release`: the generation at address 2 (slot 1
of `A`) now has `ref_count = 3` while one table entry holds it. -/
theorem C16_count_wrong_after_failed_fork :
    ∃ s g, Reachable (fun _ => True) s ∧ s.heap.deref 2 = some g ∧
      g.ref_count = 3 ∧ sysRefs s.allocs 2 = 1 := by
  have hr : Reachable (fun _ => True) _ :=
    Reachable.step .copyTo _ _
      (Reachable.step .construct _ _
        (Reachable.step .copyToThrows _ _
          (Reachable.step .construct _ _
            (Reachable.step .copyTo _ _
              (Reachable.step .construct _ _
                (Reachable.step .construct { heap := [], allocs := [] } _ Reachable.init
                  trivial
                  (Step.construct { heap := [], allocs := [] } xreallocBySize 8 16 _ _ rfl)
                  (by decide))
                trivial (Step.construct _ xreallocBySize 8 16 _ _ rfl) (by decide))
              trivial
              (Step.copyTo _ 0 1 _ _ xreallocBySize 8 _ _ _ (by decide) rfl rfl (by decide)
                rfl)
              (by decide))
            trivial (Step.construct _ xreallocBySize 8 16 _ _ rfl) (by decide))
          trivial
          (Step.copyToThrows _ 0 2 _ _ xreallocNone 8 _ _ _ (by decide) rfl rfl (by decide)
            rfl)
          (by decide))
        trivial (Step.construct _ xreallocBySize 8 16 _ _ rfl) (by decide))
      trivial
      (Step.copyTo _ 2 3 _ _ xreallocBySize 8 _ _ _ (by decide) rfl rfl (by decide) rfl)
      (by decide)
  exact ⟨_, _, hr, rfl, rfl, rfl⟩

/-- C16 as amended: in every state reached from the empty program state by
constructor calls, `alloc` (returning or throwing), `free`, `moveTo`, `copyTo`
calls that return normally (two distinct allocators, source with
`current_generation < 255`) and destructor calls, in a program that never has
`2^24` or more allocators alive at a time: the `ref_count` of each live
generation is the number of (allocator, slot) table entries of the allocators
alive that hold it, and that number is at least 1; a generation is deleted (or
was never created) exactly when that number is 0; and every non-null table entry
points to a live generation. -/
theorem C16_reference_counts (s : System) (h : Reachable completedOps s) :
    (∀ p g, s.heap.deref p = some g →
        g.ref_count = sysRefs s.allocs p ∧ 1 ≤ sysRefs s.allocs p) ∧
      (∀ p, s.heap.deref p = none ↔ sysRefs s.allocs p = 0) ∧
      (∀ a i p, a ∈ s.allocs → i < 256 → a.generations i = some p →
        ∃ g, s.heap.deref p = some g) := by
  have hinv := sysInv_of_reachable completedOps (fun _ hk => hk) s h
  refine ⟨hinv.1.1, ?_, ?_⟩
  · intro p
    constructor
    · exact hinv.1.2 p
    · intro h0
      cases hd : s.heap.deref p with
      | none => rfl
      | some g =>
        have := (hinv.1.1 p g hd).2
        omega
  · intro a i p ha hi hp
    cases hd : s.heap.deref p with
    | some g => exact ⟨g, rfl⟩
    | none =>
      exfalso
      have h0 := hinv.1.2 p hd
      obtain ⟨k, hk⟩ := List.getElem?_of_mem ha
      obtain ⟨ext, hext⟩ := sysRefs_split1 s.allocs k a hk
      have h1 := (hext p).1
      have h2 := tableRefs_pos a.generations p i hi hp
      omega

set_option maxRecDepth 100000 in
/-- Witness for C16 as amended: allocators `A` and `B` are constructed, `A` is
forked into `B` and `B` is destroyed.  The first generation of `B` (address 1)
was deleted by the fork, its second one (address 3) by the destructor, and none
is held by a table entry; the generation at address 0, which the fork shared, is
live with `ref_count = 1`, the one entry of `A`. -/
theorem C16_reference_counts_witness :
    ∃ s g, Reachable completedOps s ∧ s.allocs.length = 1 ∧
      s.heap.deref 1 = none ∧ s.heap.deref 3 = none ∧ sysRefs s.allocs 3 = 0 ∧
      s.heap.deref 0 = some g ∧ g.ref_count = 1 ∧
      g.ref_count = sysRefs s.allocs 0 ∧ 1 ≤ sysRefs s.allocs 0 := by
  have hr : Reachable completedOps _ :=
    Reachable.step .destroy _ _
      (Reachable.step .copyTo _ _
        (Reachable.step .construct _ _
          (Reachable.step .construct { heap := [], allocs := [] } _ Reachable.init
            (by unfold completedOps; decide)
            (Step.construct { heap := [], allocs := [] } xreallocBySize 8 16 _ _ rfl)
            (by decide))
          (by unfold completedOps; decide)
          (Step.construct _ xreallocBySize 8 16 _ _ rfl) (by decide))
        (by unfold completedOps; decide)
        (Step.copyTo _ 0 1 _ _ xreallocBySize 8 _ _ _ (by decide) rfl rfl (by decide) rfl)
        (by decide))
      (by unfold completedOps; decide)
      (Step.destroy _ 1 _ _ _ rfl rfl) (by decide)
  exact ⟨_, _, hr, rfl, rfl, rfl, ((C16_reference_counts _ hr).2.1 3).1 rfl, rfl, rfl,
    (C16_reference_counts _ hr).1 0 _ rfl⟩

end Minisat

namespace Minisat

/-! ## Reverse lookup in the generational allocator -/

set_option maxRecDepth 100000 in
/-- C13 at its failing input: an allocator constructed with `start_cap = 16` whose
`alloc(3)` returned the handle 0; its three elements are at the addresses
1572864, 1572865 and 1572866.  The flat reverse lookup of the second element in
generation 0 gives the index 1, and the claim has `ael` return that index with 0
in the generation field; `ael` returns the handle 0, the same as for the first
element, because writing the generation field replaces the low byte of the
index. -/
theorem C13_ael_loses_low_byte :
    ∃ a heap1 heap2 a2,
      GenerationalRegionAllocator.construct xreallocBySize 8 [] 16 = .ret a heap1 ∧
      GenerationalRegionAllocator.alloc xreallocBySize 8 heap1 a 3 = .ret 0 (heap2, a2) ∧
      GenerationalRegionAllocator.lea heap2 a2 0 = some 1572864 ∧
      (∃ p g, a2.generations 0 = some p ∧ heap2.deref p = some g ∧
        g.allocator.ael 1572865 = 1 ∧ g.allocator.ael 1572865 ≠ Ref_Undef) ∧
      GenerationalRegionAllocator.ael heap2 a2 1572865 = some 0 ∧
      GenerationalRegionAllocator.ael heap2 a2 1572864 = some 0 :=
  ⟨_, _, _, _, rfl, rfl, rfl, ⟨_, _, rfl, rfl, rfl, by decide⟩, rfl, rfl⟩

end Minisat

namespace Minisat

/-! ## Sizes of the generations in a table -/

end Minisat

namespace Minisat

/-! ## The size invariant of a system -/

end Minisat

namespace Minisat

end Minisat

namespace Minisat

end Minisat

namespace Minisat

end Minisat

namespace Minisat

/-! ## Handles across a fork -/

end Minisat
